import Mathlib

/-!
Shallow embedding of the Backrooms survival game (src/src/App.jsx) and
verification of the specification's claims about it.

Conventions of the embedding:
* The seeded RNG (`mulberry32`) is abstracted as a stream `ℕ → ℚ` of draws in
  `[0,1)`; an index counts the draws consumed so far, and is threaded through
  every function exactly in the order the source consumes `rng()` calls.
* JS numbers holding integers are modelled as `ℤ`; `Math.floor` on a rational
  is `Int.floor`.
* The grid is `List (List Cell)`, addressed `map[y][x]` as in the source.
* A cell's `light` is stored as the *minimal squared Euclidean distance* to a
  light source (a natural number), with `9` meaning "no source in range".
  The source stores the float `max(light, clamp(1 - sqrt(d2)/3, 0, 1))`
  (initially `0`); since that value is a strictly antitone function of `d2`
  (and equals `0` exactly when `d2 ≥ 9`, the initial value), taking `min` on
  the squared distances is an exact representation.  The function
  `realLightVal` interprets the code as the source's float value and the
  bridge lemmas `realLightVal_min`, `realLightVal_nine` and
  `realLightVal_gt_two_fifths` prove the representation faithful, including
  the drain test `light > 0.4` of the source, which becomes `d2 ≤ 3`.
-/

set_option maxRecDepth 10000

namespace Backrooms

/-- A random stream: draw `i` is the value of the `i`-th `rng()` call. -/
abbrev Rng := ℕ → ℚ

/-- `Math.floor(q * n)` for a rational draw `q` and an integer `n`, computed
on the draw's numerator and denominator so that concrete instances evaluate
by kernel reduction (`Int.fdiv` is floor division and `q.den > 0`); the
bridge lemma `floorMulInt_eq` below proves it equal to `⌊q * n⌋`. -/
def floorMulInt (q : ℚ) (n : ℤ) : ℤ := Int.fdiv (q.num * n) (q.den : ℤ)

/-- `Math.random() < 0.3` for a rational draw, again on numerator and
denominator; `lt03_iff` below proves it equal to `q < 3/10`. -/
def lt03 (q : ℚ) : Prop := q.num * 10 < 3 * (q.den : ℤ)

instance (q : ℚ) : Decidable (lt03 q) := by unfold lt03; infer_instance

/-- `randInt(rng, min, max)` = `Math.floor(rng() * (max - min + 1)) + min`,
applied to one draw `q`. -/
def randInt (q : ℚ) (lo hi : ℤ) : ℤ := floorMulInt q (hi - lo + 1) + lo

/-- `clamp(n, a, b)` = `Math.max(a, Math.min(b, n))`, on integers. -/
def clampI (n a b : ℤ) : ℤ := max a (min b n)

/-- `manhattan(ax, ay, bx, by)`. -/
def manhattan (ax ay bx byv : ℤ) : ℤ := |ax - bx| + |ay - byv|

/-- One Fisher–Yates swap `[a[i], a[j]] = [a[j], a[i]]` on a list. -/
def swapIdx {α : Type} (l : List α) (i j : ℕ) : List α :=
  match l[i]?, l[j]? with
  | some a, some b => (l.set i b).set j a
  | _, _ => l

/-- The loop of `shuffle`: `for (let i = a.length - 1; i > 0; i--)`; the first
argument is the current loop variable `i`, `k` the RNG index. -/
def shuffleLoop {α : Type} (rng : Rng) : ℕ → List α → ℕ → List α × ℕ
  | 0, a, k => (a, k)
  | i + 1, a, k =>
      let j := (floorMulInt (rng k) ((i : ℤ) + 1 + 1)).toNat
      shuffleLoop rng i (swapIdx a (i + 1) j) (k + 1)

/-- `shuffle(rng, arr)` (Fisher–Yates on a copy of the array). -/
def shuffle {α : Type} (rng : Rng) (k : ℕ) (arr : List α) : List α × ℕ :=
  shuffleLoop rng (arr.length - 1) arr k

/-- `TILE = { WALL: 0, FLOOR: 1 }`. -/
inductive Tile
  | WALL
  | FLOOR
deriving DecidableEq

/-- One grid cell `{ t, light, seen, item, exit }`.  `light` is the squared
distance code described in the header (`9` = dark, the initial value);
`item` is `true` for `'almond'`, `false` for `null`. -/
structure Cell where
  t : Tile
  light : ℕ
  seen : Bool
  item : Bool
  exit : Bool
deriving DecidableEq

/-- The light code meaning "no light source in range" (interpreted as the
float `0`, the source's initial value: `clamp(1 - sqrt 9 / 3, 0, 1) = 0`). -/
def DARK : ℕ := 9

/-- The grid, addressed `map[y][x]`. -/
abbrev GameMap := List (List Cell)

/-- `makeEmptyMap(w, h)`: all cells Wall, light 0 (code `DARK`), unseen,
no item, not the exit. -/
def makeEmptyMap (w h : ℕ) : GameMap :=
  List.replicate h (List.replicate w
    { t := .WALL, light := DARK, seen := false, item := false, exit := false })

/-- `map[0].length`. -/
def width (m : GameMap) : ℕ := (m.headD []).length

/-- `inBounds(map, x, y)`. -/
def inBoundsP (m : GameMap) (x y : ℤ) : Prop :=
  0 ≤ y ∧ y < (m.length : ℤ) ∧ 0 ≤ x ∧ x < (width m : ℤ)

instance (m : GameMap) (x y : ℤ) : Decidable (inBoundsP m x y) := by
  unfold inBoundsP; infer_instance

/-- `inBounds` as a boolean. -/
def inBoundsB (m : GameMap) (x y : ℤ) : Bool := decide (inBoundsP m x y)

/-- `map[y][x]`, `none` when the access would be out of range. -/
def getCell? (m : GameMap) (x y : ℤ) : Option Cell :=
  if 0 ≤ y ∧ 0 ≤ x then (m[y.toNat]?).bind (fun row => row[x.toNat]?) else none

/-- The terrain of `map[y][x]`. -/
def tileAt (m : GameMap) (x y : ℤ) : Option Tile := (getCell? m x y).map (·.t)

/-- `map[y][x].t === TILE.FLOOR` (false when out of range). -/
def isFloorB (m : GameMap) (x y : ℤ) : Bool := tileAt m x y == some .FLOOR

/-- Replace the cell at index `x` of a row by `f` of it (no-op out of range). -/
def modifyRow (row : List Cell) (x : ℕ) (f : Cell → Cell) : List Cell :=
  match row[x]? with
  | some c => row.set x (f c)
  | none => row

/-- Apply `f` to `map[y][x]` in place; a no-op when the cell does not exist,
mirroring the guards (`map[y] && map[y][x]`) of the source. -/
def modifyCell (m : GameMap) (x y : ℤ) (f : Cell → Cell) : GameMap :=
  if 0 ≤ x ∧ 0 ≤ y then
    match m[y.toNat]? with
    | some row => m.set y.toNat (modifyRow row x.toNat f)
    | none => m
  else m

/-- `carve(map, x, y)`: set the terrain to Floor if the cell exists. -/
def carve (m : GameMap) (x y : ℤ) : GameMap :=
  modifyCell m x y (fun c => { c with t := .FLOOR })

/-- The direction array `[[2,0],[-2,0],[0,2],[0,-2]]` of the maze phase. -/
def dirs2 : List (ℤ × ℤ) := [(2, 0), (-2, 0), (0, 2), (0, -2)]

/-- The `while (stack.length)` loop of `generateLayout`, fuel-bounded.  Each
iteration either pushes (and then carves a previously-Wall cell) or pops, so
`2*w*h + 2` fuel is always enough for the loop to reach the empty stack. -/
def mazeLoop (rng : Rng) : ℕ → GameMap → List (ℤ × ℤ) → ℕ → GameMap × ℕ
  | 0, m, _, k => (m, k)
  | _ + 1, m, [], k => (m, k)
  | fuel + 1, m, (cx, cy) :: rest, k =>
      let p := shuffle rng k dirs2
      match p.1.find? (fun d =>
          inBoundsB m (cx + d.1) (cy + d.2) &&
          (tileAt m (cx + d.1) (cy + d.2) == some .WALL)) with
      | some d =>
          let m1 := carve m (cx + d.1) (cy + d.2)
          let m2 := carve m1 (cx + d.1 / 2) (cy + d.2 / 2)
          mazeLoop rng fuel m2 ((cx + d.1, cy + d.2) :: (cx, cy) :: rest) p.2
      | none => mazeLoop rng fuel m rest p.2

/-- Fuel for `mazeLoop`; see its doc comment. -/
def mazeFuel (w h : ℕ) : ℕ := 2 * w * h + 2

/-- The two nested room-carving loops
`for (y = ry; y < ry+rh; y++) for (x = rx; x < rx+rw; x++) carve(map,x,y)`. -/
def carveRect (m : GameMap) (rx ry : ℤ) (rw rh : ℤ) : GameMap :=
  (List.range rh.toNat).foldl (fun acc dy =>
    (List.range rw.toNat).foldl (fun acc2 dx =>
      carve acc2 (rx + (dx : ℤ)) (ry + (dy : ℤ))) acc) m

/-- The `for (let i = 0; i < roomCount; i++)` loop punching rooms. -/
def roomsLoop (rng : Rng) (w h : ℕ) : ℕ → GameMap → ℕ → GameMap × ℕ
  | 0, m, k => (m, k)
  | n + 1, m, k =>
      let rw := randInt (rng k) 5 9
      let rh := randInt (rng (k + 1)) 4 7
      let rx := randInt (rng (k + 2)) 1 ((w : ℤ) - rw - 2)
      let ry := randInt (rng (k + 3)) 1 ((h : ℤ) - rh - 2)
      roomsLoop rng w h n (carveRect m rx ry rw rh) (k + 4)

/-- The 5×5 offset box `for (y = -2; y <= 2; y++) for (x = -2; x <= 2; x++)`,
in loop order, as `(x, y)` pairs. -/
def box5 : List (ℤ × ℤ) :=
  ([-2, -1, 0, 1, 2] : List ℤ).flatMap (fun yy =>
    ([-2, -1, 0, 1, 2] : List ℤ).map (fun xx => (xx, yy)))

/-- The body of one accepted light source at `(lx, ly)`:
`map[ny][nx].light = Math.max(light, clamp(1 - d/3, 0, 1))` becomes, in the
squared-distance code, `min light (x*x + y*y)` (see the header and the
bridge lemmas). -/
def applyLight (m : GameMap) (lx ly : ℤ) : GameMap :=
  box5.foldl (fun acc o =>
    let nx := lx + o.1
    let ny := ly + o.2
    if inBoundsP acc nx ny ∧ tileAt acc nx ny = some .FLOOR then
      modifyCell acc nx ny (fun c =>
        { c with light := min c.light (o.1 * o.1 + o.2 * o.2).toNat })
    else acc) m

/-- The `for (let i = 0; i < lightCount; i++)` loop.  The source reads
`map[ly][lx].t` without a bounds guard (a crash out of range); here an
out-of-range read compares unequal to Floor and the draw is skipped. -/
def lightsLoop (rng : Rng) (w h : ℕ) : ℕ → GameMap → ℕ → GameMap × ℕ
  | 0, m, k => (m, k)
  | n + 1, m, k =>
      let lx := randInt (rng k) 2 ((w : ℤ) - 3)
      let ly := randInt (rng (k + 1)) 2 ((h : ℤ) - 3)
      let m' := if tileAt m lx ly = some .FLOOR then applyLight m lx ly else m
      lightsLoop rng w h n m' (k + 2)

/-- `Math.floor(w/2) | 1` (the odd-aligned start coordinate): on a
non-negative integer, bitwise-or with 1 sets the lowest bit. -/
def oddAlign (n : ℕ) : ℕ := if n / 2 % 2 = 0 then n / 2 + 1 else n / 2

/-- The backtracking phase of `generateLayout`: carve the odd-aligned start
cell and run the stack loop to exhaustion. -/
def mazePhase (w h : ℕ) (rng : Rng) (k0 : ℕ) : GameMap × ℕ :=
  let m0 := makeEmptyMap w h
  let sx : ℤ := (oddAlign w : ℤ)
  let sy : ℤ := (oddAlign h : ℤ)
  let m1 := carve m0 sx sy
  mazeLoop rng (mazeFuel w h) m1 [(sx, sy)] k0

/-- The maze phase followed by the `Math.floor(w*h/400)` punched rooms. -/
def roomsPhase (w h : ℕ) (rng : Rng) (k0 : ℕ) : GameMap × ℕ :=
  let r1 := mazePhase w h rng k0
  roomsLoop rng w h (w * h / 400) r1.1 r1.2

/-- `generateLayout(w, h, rng)`, also returning the RNG index reached, so the
same stream can continue into `placeThings` as in the source. -/
def generateLayoutAux (w h : ℕ) (rng : Rng) (k0 : ℕ) : GameMap × ℕ :=
  let r2 := roomsPhase w h rng k0
  lightsLoop rng w h (w * h / 200) r2.1 r2.2

/-- `generateLayout(w, h, rng)` started on a fresh stream. -/
def generateLayout (w h : ℕ) (rng : Rng) : GameMap := (generateLayoutAux w h rng 0).1

/-- A pursuer `{ x, y, cooldown }`. -/
structure Hound where
  x : ℤ
  y : ℤ
  cooldown : ℤ
deriving DecidableEq

/-- The floor list of `placeThings`: all `[x, y]` with
`map[y][x].t === TILE.FLOOR`, scanned `y` outer, `x` inner. -/
def floorsOf (m : GameMap) : List (ℤ × ℤ) :=
  (List.range m.length).flatMap (fun (y : ℕ) =>
    (List.range (width m)).filterMap (fun (x : ℕ) =>
      if tileAt m ((x : ℕ) : ℤ) ((y : ℕ) : ℤ) = some .FLOOR
      then some (((x : ℕ) : ℤ), ((y : ℕ) : ℤ))
      else none))

/-- The index `Math.floor(rng() * floors.length)` of one pool draw. -/
def pickIdx (q : ℚ) (len : ℕ) : ℕ := (floorMulInt q (len : ℤ)).toNat

/-- `pick()` = `floors.splice(Math.floor(rng()*floors.length), 1)[0]`:
returns the chosen coordinate and the list with it removed.  The source
crashes when the pool is empty; here the dummy `(0, 0)` is returned (all
theorems that touch this path assume a large enough pool). -/
def pick (floors : List (ℤ × ℤ)) (q : ℚ) : (ℤ × ℤ) × List (ℤ × ℤ) :=
  let i := pickIdx q floors.length
  ((floors[i]?).getD (0, 0), floors.eraseIdx i)

/-- The `for (let i = 0; i < 200; i++)` goal-search loop: one draw from the
current `floors` pool (with replacement), replacing the incumbent `(ex, ey)`
exactly when the Manhattan distance from the spawn is strictly greater. -/
def goalLoop (rng : Rng) (px py : ℤ) (floors : List (ℤ × ℤ)) :
    ℕ → (ℤ × ℤ) → ℤ → ℕ → (ℤ × ℤ) × ℕ
  | 0, best, _, k => (best, k)
  | n + 1, best, bestD, k =>
      let c := (floors[pickIdx (rng k) floors.length]?).getD (0, 0)
      let d := manhattan px py c.1 c.2
      if d > bestD then goalLoop rng px py floors n c d (k + 1)
      else goalLoop rng px py floors n best bestD (k + 1)

/-- The Almond-Water loop: `pick()` a cell, and set its item unless it is the
exit cell (the pick is consumed either way). -/
def itemsLoop (rng : Rng) : ℕ → GameMap → List (ℤ × ℤ) → ℕ →
    GameMap × List (ℤ × ℤ) × ℕ
  | 0, m, floors, k => (m, floors, k)
  | n + 1, m, floors, k =>
      let pr := pick floors (rng k)
      let m' :=
        if (getCell? m pr.1.1 pr.1.2).map (·.exit) = some true then m
        else modifyCell m pr.1.1 pr.1.2 (fun c => { c with item := true })
      itemsLoop rng n m' pr.2 (k + 1)

/-- The hound-placement loop: `pick()` a cell (one draw) and draw a cooldown
`randInt(rng, 0, 2)` (a second draw). -/
def houndsLoop (rng : Rng) : ℕ → List Hound → List (ℤ × ℤ) → ℕ →
    List Hound × List (ℤ × ℤ) × ℕ
  | 0, hs, floors, k => (hs, floors, k)
  | n + 1, hs, floors, k =>
      let pr := pick floors (rng k)
      let cd := randInt (rng (k + 1)) 0 2
      houndsLoop rng n (hs ++ [{ x := pr.1.1, y := pr.1.2, cooldown := cd }]) pr.2 (k + 2)

/-- The result of `placeThings`: the mutated map, the spawn `px, py`, the
hound list, and the RNG index reached. -/
structure PlaceResult where
  m : GameMap
  px : ℤ
  py : ℤ
  hounds : List Hound
  k : ℕ
deriving DecidableEq

/-- `placeThings(map, rng)` continued at RNG index `k0`.  Order of draws:
spawn pick; 200 goal draws (with replacement, from the pool *after* the spawn
was spliced out); `max(5, floor(len/120))` item picks; `max(1, floor(len/800))`
hound picks with a cooldown draw each (each `len` being the length of the
pool at that point, as in the source). -/
def placeThings (m : GameMap) (rng : Rng) (k0 : ℕ) : PlaceResult :=
  let floors := floorsOf m
  let sp := pick floors (rng k0)
  let gl := goalLoop rng sp.1.1 sp.1.2 sp.2 200 (sp.1.1, sp.1.2) (-1) (k0 + 1)
  let m1 := modifyCell m gl.1.1 gl.1.2 (fun c => { c with exit := true })
  let awCount := max 5 (sp.2.length / 120)
  let it := itemsLoop rng awCount m1 sp.2 gl.2
  let hCount := max 1 (it.2.1.length / 800)
  let hl := houndsLoop rng hCount [] it.2.1 it.2.2
  { m := it.1, px := sp.1.1, py := sp.1.2, hounds := hl.1, k := hl.2.2 }

/-- The direction array `[[1,0],[-1,0],[0,1],[0,-1]]` of `stepHound`. -/
def dirs1 : List (ℤ × ℤ) := [(1, 0), (-1, 0), (0, 1), (0, -1)]

/-- `stepHound(map, h, targetX, targetY, rng)`: shuffle the four unit steps
(three draws), stable-sort them ascending by resulting Manhattan distance to
the target (JS `sort` is stable; `List.mergeSort` is its model), and move to
the first candidate that is in-bounds Floor; stay put if none is. -/
def stepHound (m : GameMap) (h : Hound) (tx ty : ℤ) (rng : Rng) (k : ℕ) :
    Hound × ℕ :=
  let sh := shuffle rng k dirs1
  let sorted := List.insertionSort (fun a b =>
    manhattan (h.x + a.1) (h.y + a.2) tx ty ≤ manhattan (h.x + b.1) (h.y + b.2) tx ty) sh.1
  match sorted.find? (fun d =>
      inBoundsB m (h.x + d.1) (h.y + d.2) && isFloorB m (h.x + d.1) (h.y + d.2)) with
  | some d => ({ h with x := h.x + d.1, y := h.y + d.2 }, sh.2)
  | none => (h, sh.2)

/-- `'dead'` / `'win'` (the non-null values of `gameOver`). -/
inductive Outcome
  | dead
  | win
deriving DecidableEq

/-- The session state owned by the component: the grid plus the `useState`
cells `player`, `hounds`, `sanity`, `bottles`, `turn`, `gameOver`
(`none` = in progress). -/
structure GameState where
  map : GameMap
  player : ℤ × ℤ
  hounds : List Hound
  sanity : ℤ
  bottles : ℤ
  turn : ℤ
  gameOver : Option Outcome
deriving DecidableEq

/-- One hound's update inside `step`: decrement a positive cooldown and stay;
otherwise chase (`stepHound`) when the Manhattan distance to the player's new
position is `< 10`, or — only then drawing from the stream, as `||`
short-circuits — when a draw is `< 0.3`. -/
def houndTurn (m : GameMap) (h : Hound) (nx ny : ℤ) (rng : Rng) (k : ℕ) :
    Hound × ℕ :=
  if h.cooldown > 0 then ({ h with cooldown := h.cooldown - 1 }, k)
  else if manhattan h.x h.y nx ny < 10 then stepHound m h nx ny rng k
  else if lt03 (rng (k)) then stepHound m h nx ny rng (k + 1)
  else (h, k + 1)

/-- The `for (const h of nextH)` loop of `step` over all hounds, in order. -/
def advanceHounds (m : GameMap) : List Hound → ℤ → ℤ → Rng → ℕ →
    List Hound × ℕ
  | [], _, _, _, k => ([], k)
  | h :: rest, nx, ny, rng, k =>
      let r := houndTurn m h nx ny rng k
      let rr := advanceHounds m rest nx ny rng r.2
      (r.1 :: rr.1, rr.2)

/-- The body of `step` once the candidate cell `(nx, ny)` is known: reject
Wall; mark seen; pick up an item; win on the exit cell (turn incremented,
hounds untouched); otherwise drain sanity (1 when `light > 0.4`, i.e. squared
distance code `≤ 3`, else 3), advance the hounds against the *pre-step* map
and the player's new position, lose on contact (sanity already drained, turn
not incremented), lose on `sanity - drain ≤ 0`, else increment the turn. -/
def resolveAt (g : GameState) (nx ny : ℤ) (rng : Rng) (k : ℕ) : GameState :=
  if tileAt g.map nx ny = some .FLOOR then
    let m1 := modifyCell g.map nx ny (fun c => { c with seen := true })
    let hasItem := (getCell? m1 nx ny).map (·.item) = some true
    let m2 :=
      if hasItem then modifyCell m1 nx ny (fun c => { c with item := false })
      else m1
    let bottles' := if hasItem then g.bottles + 1 else g.bottles
    if (getCell? m2 nx ny).map (·.exit) = some true then
      { g with map := m2, player := (nx, ny), bottles := bottles',
               turn := g.turn + 1, gameOver := some .win }
    else
      let lightc := ((getCell? m2 nx ny).map (·.light)).getD DARK
      let drain : ℤ := if lightc ≤ 3 then 1 else 3
      let sanity' := clampI (g.sanity - drain) 0 100
      let ah := advanceHounds g.map g.hounds nx ny rng k
      if ah.1.any (fun h => h.x == nx && h.y == ny) then
        { g with map := m2, player := (nx, ny), bottles := bottles',
                 sanity := sanity', hounds := ah.1, gameOver := some .dead }
      else if g.sanity - drain ≤ 0 then
        { g with map := m2, player := (nx, ny), bottles := bottles',
                 sanity := sanity', hounds := ah.1, gameOver := some .dead }
      else
        { g with map := m2, player := (nx, ny), bottles := bottles',
                 sanity := sanity', hounds := ah.1, turn := g.turn + 1 }
  else g

/-- `step(dx, dy)` for a `W × H` session (the component fixes `W = 46`,
`H = 30`): a no-op on a terminal state, else resolve at the candidate
coordinate *clamped* to the grid bounds.  `rng, k` model the `Math.random`
stream used for the hound updates. -/
def step (W H : ℕ) (g : GameState) (dx dy : ℤ) (rng : Rng) (k : ℕ) : GameState :=
  if g.gameOver.isSome then g
  else resolveAt g (clampI (g.player.1 + dx) 0 ((W : ℤ) - 1))
                   (clampI (g.player.2 + dy) 0 ((H : ℤ) - 1)) rng k

/-- `drink()`: a no-op when out of bottles or after a terminal outcome; else
one bottle is consumed and sanity rises by 35, clamped to `[0, 100]`. -/
def drink (g : GameState) : GameState :=
  if g.bottles ≤ 0 ∨ g.gameOver.isSome then g
  else { g with bottles := g.bottles - 1, sanity := clampI (g.sanity + 35) 0 100 }

/-- A player action: a directional intent (with the `Math.random` draws its
hound updates will consume) or drinking Almond Water. -/
inductive Action
  | move (dx dy : ℤ) (rng : Rng) (k : ℕ)
  | drinkA

/-- Apply one action to the state. -/
def applyAction (W H : ℕ) (g : GameState) : Action → GameState
  | .move dx dy rng k => step W H g dx dy rng k
  | .drinkA => drink g

/-- Run a finite sequence of actions. -/
def runActions (W H : ℕ) (g : GameState) (acts : List Action) : GameState :=
  acts.foldl (applyAction W H) g

/-- The session constants `W = 46`, `H = 30`. -/
def sessionW : ℕ := 46

/-- The session constants `W = 46`, `H = 30`. -/
def sessionH : ℕ := 30

/-- The one-time placement effect: generate the layout, place everything with
the same stream, mark the spawn seen, and reset sanity 100, bottles 0,
turn 0, `gameOver = null`. -/
def createSession (rng : Rng) : GameState :=
  let gl := generateLayoutAux sessionW sessionH rng 0
  let pr := placeThings gl.1 rng gl.2
  let m := modifyCell pr.m pr.px pr.py (fun c => { c with seen := true })
  { map := m, player := (pr.px, pr.py), hounds := pr.hounds,
    sanity := 100, bottles := 0, turn := 0, gameOver := none }

/-- Floor-to-Floor axis-aligned adjacency of two coordinates (both cells
exist and are Floor, and they differ by one unit step). -/
def FloorAdj (m : GameMap) (p q : ℤ × ℤ) : Prop :=
  tileAt m p.1 p.2 = some .FLOOR ∧ tileAt m q.1 q.2 = some .FLOOR ∧
  |p.1 - q.1| + |p.2 - q.2| = 1

/-- Reachability via Floor-to-Floor axis-aligned steps. -/
def Reach (m : GameMap) : (ℤ × ℤ) → (ℤ × ℤ) → Prop :=
  Relation.ReflTransGen (FloorAdj m)

/-- A rectangular grid: every row has the width of the first row.  All maps
the program builds are rectangular. -/
def Rect (m : GameMap) : Prop := ∀ row ∈ m, row.length = width m

/-- All floor cells of a grid are mutually reachable. -/
def FloorConn (m : GameMap) : Prop :=
  ∀ a b : ℤ × ℤ, tileAt m a.1 a.2 = some .FLOOR → tileAt m b.1 b.2 = some .FLOOR →
    Reach m a b

/-- The source's float value of a cell whose squared-distance light code is
`d2`: `clamp(1 - sqrt(d2)/3, 0, 1)`.  Only used in specifications; the code
itself is the executable representation. -/
noncomputable def realLightVal (d2 : ℕ) : ℝ :=
  max 0 (min 1 (1 - Real.sqrt d2 / 3))

/-- The light code of `map[y][x]` (`DARK` when out of range). -/
def lightCodeAt (m : GameMap) (x y : ℤ) : ℕ :=
  ((getCell? m x y).map (·.light)).getD DARK

/-- The coordinates `(lx, ly)` of the `n` light-pass draws starting at RNG
index `k` (the source always consumes both draws before testing terrain). -/
def lightDrawCoords (rng : Rng) (w h : ℕ) : ℕ → ℕ → List (ℤ × ℤ)
  | _, 0 => []
  | k, n + 1 =>
      (randInt (rng k) 2 ((w : ℤ) - 3), randInt (rng (k + 1)) 2 ((h : ℤ) - 3)) ::
        lightDrawCoords rng w h (k + 2) n

/-- Claim C7 as stated: the light pass places exactly `⌊w*h/200⌋` sources,
each draw landing on a Floor cell, and every Floor cell's light equals the
maximum over sources within Euclidean distance 3 of `clamp(1 - d/3, 0, 1)`
(and is 0 when no source is within distance 3). -/
def ClaimC7 (w h : ℕ) (rng : Rng) : Prop :=
  (∀ p ∈ lightDrawCoords rng w h (roomsPhase w h rng 0).2 (w * h / 200),
      tileAt (roomsPhase w h rng 0).1 p.1 p.2 = some .FLOOR) ∧
  ∀ x y : ℤ, tileAt (generateLayout w h rng) x y = some .FLOOR →
    realLightVal (lightCodeAt (generateLayout w h rng) x y) =
      (((lightDrawCoords rng w h (roomsPhase w h rng 0).2 (w * h / 200)).filter
          (fun s => decide ((x - s.1) ^ 2 + (y - s.2) ^ 2 < 9))).map
        (fun s => realLightVal ((x - s.1) ^ 2 + (y - s.2) ^ 2).toNat)).foldr max 0

/-- The goal-draw coordinates read (with replacement) from the pool
`floors`, starting at RNG index `k`, in draw order. -/
def goalDrawCoords (rng : Rng) (floors : List (ℤ × ℤ)) : ℕ → ℕ → List (ℤ × ℤ)
  | _, 0 => []
  | k, n + 1 =>
      (floors[pickIdx (rng k) floors.length]?).getD (0, 0) ::
        goalDrawCoords rng floors (k + 1) n

/-- A strictly-greater maximum scan over Manhattan distance from `(px, py)`:
a candidate replaces the incumbent only when strictly farther. -/
def strictMaxScan (px py : ℤ) : List (ℤ × ℤ) → (ℤ × ℤ) → ℤ → ℤ × ℤ
  | [], best, _ => best
  | c :: rest, best, bestD =>
      if manhattan px py c.1 c.2 > bestD then
        strictMaxScan px py rest c (manhattan px py c.1 c.2)
      else strictMaxScan px py rest best bestD

/-- The candidate kept by the strictly-greater maximum scan, starting from
the incumbent `(px, py)` at distance `-1` exactly as the source initialises
`ex, ey, bestD`. -/
def firstStrictMax (px py : ℤ) (l : List (ℤ × ℤ)) : ℤ × ℤ :=
  strictMaxScan px py l (px, py) (-1)

/-- The goal cell as claim C6 describes it: 200 draws with replacement from
the *full original* floor list (the list before any removal, the spawn cell
included), keeping strictly-farther candidates. -/
def specGoalFromFullList (m : GameMap) (rng : Rng) (k0 : ℕ) : ℤ × ℤ :=
  let floors := floorsOf m
  let sp := pick floors (rng k0)
  firstStrictMax sp.1.1 sp.1.2 (goalDrawCoords rng floors (k0 + 1) 200)

/-- The pool remaining after `n` without-replacement `pick()` steps starting
at RNG index `k`; `gap` extra draws are consumed after each pick (`1` in the
hound loop, which draws a cooldown after each pick, `0` in the item loop). -/
def poolAfter (rng : Rng) (gap : ℕ) : ℕ → List (ℤ × ℤ) → ℕ → List (ℤ × ℤ)
  | 0, floors, _ => floors
  | n + 1, floors, k => poolAfter rng gap n (pick floors (rng k)).2 (k + 1 + gap)

/-- The coordinates of `n` without-replacement `pick()` steps, in order. -/
def pickSeq (rng : Rng) (gap : ℕ) : ℕ → List (ℤ × ℤ) → ℕ → List (ℤ × ℤ)
  | 0, _, _ => []
  | n + 1, floors, k =>
      (pick floors (rng k)).1 :: pickSeq rng gap n (pick floors (rng k)).2 (k + 1 + gap)

/-- The legal candidate steps of a hound: the unit directions whose
destination is in-bounds Floor. -/
def legalSteps (m : GameMap) (h : Hound) : List (ℤ × ℤ) :=
  dirs1.filter (fun d =>
    inBoundsB m (h.x + d.1) (h.y + d.2) && isFloorB m (h.x + d.1) (h.y + d.2))

/-- The all-zero random stream (every draw is `0`). -/
def rngZ : Rng := fun _ => 0

/-- The rational `1/5`, built by the constructor so that it evaluates by
kernel reduction. -/
def q15 : ℚ := ⟨1, 5, by decide, by decide⟩

/-- The rational `1/3`. -/
def q13 : ℚ := ⟨1, 3, by decide, by decide⟩

/-- The rational `1/2`. -/
def q12 : ℚ := ⟨1, 2, by decide, by decide⟩

/-- A crafted stream for the 800×1 layout: the maze phase consumes draws
0–2 and carves nothing, the rooms (draws 3–10) are punched at columns 1–5
and 397–401 of the single row, and each of the four lighting draws
(11–18) yields `(lx, ly) = (2, 0)` — `ly = ⌊(1/2)·(-3)⌋ + 2 = 0` lies
inside the single-row map, so every `map[ly][lx]` read of the source is in
range and the generator runs to completion on this stream. -/
def rngRooms : Rng := fun i =>
  if i = 6 ∨ i = 10 then q15
  else if i = 9 ∨ i = 12 ∨ i = 14 ∨ i = 16 ∨ i = 18 then q12
  else 0

/-- A crafted stream for `placeThings` on the 5×5 layout: the five item
picks each remove the second pool element, leaving the goal cell `(2, 1)`
as the only remaining floor cell, which the hound pick then takes. -/
def rngHoundOnGoal : Rng := fun i =>
  if i = 222 ∨ i = 223 then q15
  else if i = 224 then q13
  else if i = 225 ∨ i = 226 then q12
  else 0

/-- An all-Floor, dark (light code `DARK`), already-seen cell. -/
def floorCellDark : Cell :=
  { t := .FLOOR, light := DARK, seen := true, item := false, exit := false }

/-- An all-Floor dark 46×30 grid (the session dimensions). -/
def flatMap46 : GameMap := List.replicate 30 (List.replicate 46 floorCellDark)

/-- An in-progress session state used to refute claim C1: the player at
`(5, 5)` with a ready hound two cells to the right; moving right puts the
hound on the player. -/
def stC1 : GameState :=
  { map := flatMap46, player := (5, 5), hounds := [{ x := 7, y := 5, cooldown := 0 }],
    sanity := 50, bottles := 0, turn := 0, gameOver := none }

/-- An in-progress session state used to refute claim C2: the player on the
left edge, no hounds. -/
def stC2 : GameState :=
  { map := flatMap46, player := (0, 5), hounds := [],
    sanity := 100, bottles := 0, turn := 0, gameOver := none }

/-- A session state on the goal's doorstep (exit marked at `(6, 5)`), with a
far-away cooled-down hound; used as the witness for claim C9. -/
def stC9 : GameState :=
  { map := modifyCell flatMap46 6 5 (fun c => { c with exit := true }),
    player := (5, 5), hounds := [{ x := 20, y := 20, cooldown := 5 }],
    sanity := 80, bottles := 1, turn := 7, gameOver := none }

/-- A terminal (won) session state with a bottle in stock; used as the
witness for claim C4. -/
def stWon : GameState :=
  { map := flatMap46, player := (5, 5), hounds := [{ x := 7, y := 5, cooldown := 0 }],
    sanity := 50, bottles := 2, turn := 9, gameOver := some .win }

/-- The light code a Floor cell `(x, y)` accumulates over a list of light
draws: a draw landing on a Floor cell of `m0` whose 5×5 box covers `(x, y)`
lowers the code to the squared distance (the code-level image of
`light = max(light, clamp(1 - d/3, 0, 1))`); any other draw is skipped. -/
def lightFoldCode (m0 : GameMap) (x y : ℤ) (draws : List (ℤ × ℤ)) (init : ℕ) : ℕ :=
  draws.foldl (fun acc s =>
    if tileAt m0 s.1 s.2 = some .FLOOR ∧ (x - s.1, y - s.2) ∈ box5 then
      min acc ((x - s.1) * (x - s.1) + (y - s.2) * (y - s.2)).toNat
    else acc) init

/-! ### Bridge lemmas: the integer-arithmetic primitives equal the source's
`Math.floor` / comparison formulas -/

/-- `floorMulInt q n` is `Math.floor(q * n)`. -/
theorem floorMulInt_eq (q : ℚ) (n : ℤ) : floorMulInt q n = ⌊q * (n : ℚ)⌋ := by
  have hq : q * (n : ℚ) = ((q.num * n : ℤ) : ℚ) / ((q.den : ℕ) : ℚ) := by
    conv_lhs => rw [← Rat.num_div_den q]
    push_cast
    ring
  rw [floorMulInt, Int.fdiv_eq_ediv _ (Int.natCast_nonneg q.den), hq,
    Rat.floor_intCast_div_natCast]

/-- `lt03 q` is `q < 0.3`. -/
theorem lt03_iff (q : ℚ) : lt03 q ↔ q < 3 / 10 := by
  rw [lt03]
  conv_rhs => rw [← Rat.num_div_den q]
  rw [div_lt_div_iff₀ (by exact_mod_cast q.pos) (by norm_num)]
  constructor <;> intro h <;> exact_mod_cast h

/-- `realLightVal` is antitone: a closer source means more light. -/
theorem realLightVal_anti {a b : ℕ} (h : a ≤ b) : realLightVal b ≤ realLightVal a := by
  unfold realLightVal
  have hs : Real.sqrt a ≤ Real.sqrt b := Real.sqrt_le_sqrt (by exact_mod_cast h)
  exact max_le_max le_rfl (min_le_min le_rfl (by linarith))

/-- Taking `min` of squared-distance codes is taking `Math.max` of the
source's float light values: the representation update is faithful. -/
theorem realLightVal_min (a b : ℕ) :
    realLightVal (min a b) = max (realLightVal a) (realLightVal b) := by
  rcases le_total a b with h | h
  · rw [min_eq_left h, max_eq_left (realLightVal_anti h)]
  · rw [min_eq_right h, max_eq_right (realLightVal_anti h)]

/-- The initial code `DARK = 9` means float light `0`, matching the source's
initial `light: 0`. -/
theorem realLightVal_nine : realLightVal 9 = 0 := by
  unfold realLightVal
  rw [show ((9 : ℕ) : ℝ) = 3 ^ 2 by norm_num, Real.sqrt_sq (by norm_num)]
  norm_num

/-- The source's drain test `light > 0.4` holds exactly when the
squared-distance code is at most 3. -/
theorem two_fifths_lt_realLightVal_iff (d2 : ℕ) :
    (2 / 5 : ℝ) < realLightVal d2 ↔ d2 ≤ 3 := by
  unfold realLightVal
  rw [lt_max_iff, lt_min_iff]
  simp only [show ¬((2 / 5 : ℝ) < 0) by norm_num, false_or]
  constructor
  · rintro ⟨-, h2⟩
    by_contra hgt
    push_neg at hgt
    have h4 : (4 : ℝ) ≤ (d2 : ℝ) := by exact_mod_cast hgt
    have hs : Real.sqrt 4 ≤ Real.sqrt d2 := Real.sqrt_le_sqrt h4
    rw [show (4 : ℝ) = 2 ^ 2 by norm_num, Real.sqrt_sq (by norm_num)] at hs
    linarith
  · intro h
    have h3 : (d2 : ℝ) ≤ 3 := by exact_mod_cast h
    have hs : Real.sqrt d2 < 9 / 5 :=
      (Real.sqrt_lt' (by norm_num)).mpr (by nlinarith)
    constructor
    · norm_num
    · linarith

/-- The embedded drain `if code ≤ 3 then 1 else 3` is the source's
`light > 0.4 ? 1 : 3`. -/
theorem drain_code_eq (d2 : ℕ) :
    (if d2 ≤ 3 then (1 : ℤ) else 3) =
      (if (2 / 5 : ℝ) < realLightVal d2 then 1 else 3) := by
  by_cases h : d2 ≤ 3
  · rw [if_pos h, if_pos ((two_fifths_lt_realLightVal_iff d2).mpr h)]
  · rw [if_neg h, if_neg (fun hc => h ((two_fifths_lt_realLightVal_iff d2).mp hc))]

/-! ### Clamp lemmas -/

theorem clampI_mem (n : ℤ) : 0 ≤ clampI n 0 100 ∧ clampI n 0 100 ≤ 100 := by
  unfold clampI
  refine ⟨le_max_left _ _, max_le (by norm_num) (min_le_left _ _)⟩

theorem clampI_id {n b : ℤ} (h1 : 0 ≤ n) (h2 : n ≤ b) : clampI n 0 b = n := by
  unfold clampI
  rw [min_eq_right h2, max_eq_right h1]

theorem clampI_low {n b : ℤ} (h : n < 0) : clampI n 0 b = 0 := by
  unfold clampI
  exact max_eq_left (le_trans (min_le_right _ _) (le_of_lt h))

theorem clampI_high {n b : ℤ} (h : b ≤ n) (h2 : 0 ≤ b) : clampI n 0 b = b := by
  unfold clampI
  rw [min_eq_left h, max_eq_right h2]

/-! ### Cell access under `modifyCell` -/

theorem getCell?_modifyCell_self (m : GameMap) (x y : ℤ) (f : Cell → Cell) :
    getCell? (modifyCell m x y f) x y = (getCell? m x y).map f := by
  by_cases hx : 0 ≤ x
  · by_cases hy : 0 ≤ y
    · cases hrow : m[y.toNat]? with
      | none => simp [modifyCell, getCell?, hx, hy, hrow]
      | some row =>
          have hlt : y.toNat < m.length := by
            by_contra hc
            push_neg at hc
            rw [List.getElem?_eq_none hc] at hrow
            exact Option.noConfusion hrow
          cases hc : row[x.toNat]? with
          | none =>
              simp [modifyCell, getCell?, hx, hy, hrow, modifyRow, hc,
                List.getElem?_set_self hlt]
          | some c =>
              have hxl : x.toNat < row.length := by
                by_contra hcc
                push_neg at hcc
                rw [List.getElem?_eq_none hcc] at hc
                exact Option.noConfusion hc
              simp [modifyCell, getCell?, hx, hy, hrow, modifyRow, hc,
                List.getElem?_set_self hlt, List.getElem?_set_self hxl]
    · simp [modifyCell, getCell?, hy]
  · simp [modifyCell, getCell?, hx]

theorem getCell?_modifyCell_ne (m : GameMap) (a b x y : ℤ) (f : Cell → Cell)
    (h : ¬(x = a ∧ y = b)) :
    getCell? (modifyCell m a b f) x y = getCell? m x y := by
  by_cases hax : 0 ≤ a
  · by_cases hby : 0 ≤ b
    · cases hrow : m[b.toNat]? with
      | none => simp [modifyCell, hax, hby, hrow]
      | some row =>
          have hlt : b.toNat < m.length := by
            by_contra hc
            push_neg at hc
            rw [List.getElem?_eq_none hc] at hrow
            exact Option.noConfusion hrow
          by_cases hy : 0 ≤ y
          · by_cases hx : 0 ≤ x
            · by_cases hyb : y = b
              · subst hyb
                have hxa : ¬x = a := fun hc => h ⟨hc, rfl⟩
                have hne : a.toNat ≠ x.toNat := by omega
                cases hc : row[a.toNat]? with
                | none =>
                    simp [modifyCell, hax, hby, hrow, getCell?, hx, hy, modifyRow, hc,
                      List.getElem?_set_self hlt]
                | some c =>
                    simp [modifyCell, hax, hby, hrow, getCell?, hx, hy, modifyRow, hc,
                      List.getElem?_set_self hlt, List.getElem?_set_ne hne]
              · have hne : y.toNat ≠ b.toNat := by omega
                simp [modifyCell, hax, hby, hrow, getCell?, hx, hy,
                  List.getElem?_set_ne (fun hc => hne hc.symm)]
            · simp [modifyCell, getCell?, hx]
          · simp [modifyCell, getCell?, hy]
    · simp [modifyCell, hby]
  · simp [modifyCell, hax]

/-! ### Terminal states are absorbing (C4) and sanity bounds (C3) -/

theorem step_terminal_eq (W H : ℕ) (g : GameState) (dx dy : ℤ) (rng : Rng) (k : ℕ)
    (h : g.gameOver.isSome) : step W H g dx dy rng k = g := by
  unfold step
  rw [if_pos h]

theorem drink_terminal_eq (g : GameState) (h : g.gameOver.isSome) : drink g = g := by
  unfold drink
  rw [if_pos (Or.inr h)]

/-- C4: once the outcome is `Won` or `Lost` (`gameOver` non-null), any finite
sequence of further `applyMove` (`step`) and `consumeItem` (`drink`) calls
leaves the entire session state unchanged. -/
theorem terminal_absorbing (g : GameState) (acts : List Action)
    (h : g.gameOver.isSome) : runActions sessionW sessionH g acts = g := by
  induction acts with
  | nil => rfl
  | cons a rest ih =>
      have h1 : applyAction sessionW sessionH g a = g := by
        cases a with
        | move dx dy rng k => exact step_terminal_eq _ _ _ _ _ _ _ h
        | drinkA => exact drink_terminal_eq _ h
      show runActions sessionW sessionH (applyAction sessionW sessionH g a) rest = g
      rw [h1]
      exact ih

/-- Witness for C4 at a concrete terminal state and action sequence. -/
theorem terminal_absorbing_witness :
    stWon.gameOver.isSome = true ∧
      runActions sessionW sessionH stWon [.move 1 0 rngZ 0, .drinkA, .move 0 (-1) rngZ 3] = stWon :=
  ⟨by decide, terminal_absorbing stWon [.move 1 0 rngZ 0, .drinkA, .move 0 (-1) rngZ 3] (by decide)⟩

theorem resolveAt_sanity_cases (g : GameState) (nx ny : ℤ) (rng : Rng) (k : ℕ) :
    (resolveAt g nx ny rng k).sanity = g.sanity ∨
      ∃ d : ℤ, (resolveAt g nx ny rng k).sanity = clampI (g.sanity - d) 0 100 := by
  unfold resolveAt
  dsimp only
  split
  · repeat' split
    all_goals first
      | exact Or.inl rfl
      | exact Or.inr ⟨_, rfl⟩
  · exact Or.inl rfl

theorem step_sanity_bounds (W H : ℕ) (g : GameState) (dx dy : ℤ) (rng : Rng) (k : ℕ)
    (h : 0 ≤ g.sanity ∧ g.sanity ≤ 100) :
    0 ≤ (step W H g dx dy rng k).sanity ∧ (step W H g dx dy rng k).sanity ≤ 100 := by
  unfold step
  split
  · exact h
  · rcases resolveAt_sanity_cases g (clampI (g.player.1 + dx) 0 ((W : ℤ) - 1))
      (clampI (g.player.2 + dy) 0 ((H : ℤ) - 1)) rng k with hs | ⟨d, hs⟩
    · rw [hs]; exact h
    · rw [hs]; exact clampI_mem _

theorem drink_sanity_bounds (g : GameState) (h : 0 ≤ g.sanity ∧ g.sanity ≤ 100) :
    0 ≤ (drink g).sanity ∧ (drink g).sanity ≤ 100 := by
  unfold drink
  split
  · exact h
  · exact clampI_mem _

theorem runActions_sanity_bounds (acts : List Action) (g : GameState)
    (h : 0 ≤ g.sanity ∧ g.sanity ≤ 100) :
    0 ≤ (runActions sessionW sessionH g acts).sanity ∧
      (runActions sessionW sessionH g acts).sanity ≤ 100 := by
  induction acts generalizing g with
  | nil => exact h
  | cons a rest ih =>
      show 0 ≤ (runActions sessionW sessionH (applyAction sessionW sessionH g a) rest).sanity ∧ _
      refine ih _ ?_
      cases a with
      | move dx dy rng k => exact step_sanity_bounds _ _ _ _ _ _ _ h
      | drinkA => exact drink_sanity_bounds _ h

/-- C3: for every session started from a seed (any random stream) and every
finite sequence of `applyMove`/`consumeItem` calls, the sanity value is an
integer in `[0, 100]`. -/
theorem sanity_always_bounded (rng : Rng) (acts : List Action) :
    0 ≤ (runActions sessionW sessionH (createSession rng) acts).sanity ∧
      (runActions sessionW sessionH (createSession rng) acts).sanity ≤ 100 :=
  runActions_sanity_bounds acts (createSession rng)
    (by rw [show (createSession rng).sanity = 100 from rfl]; norm_num)

/-! ### The winning step (C9), the caught branch (C1), boundary moves (C2) -/

theorem resolveAt_win (g : GameState) (nx ny : ℤ) (rng : Rng) (k : ℕ)
    (hfl : tileAt g.map nx ny = some .FLOOR)
    (hex : (getCell? g.map nx ny).map (·.exit) = some true) :
    (resolveAt g nx ny rng k).gameOver = some .win ∧
    (resolveAt g nx ny rng k).player = (nx, ny) ∧
    (resolveAt g nx ny rng k).turn = g.turn + 1 ∧
    (resolveAt g nx ny rng k).hounds = g.hounds ∧
    (resolveAt g nx ny rng k).sanity = g.sanity := by
  obtain ⟨c, hgc, hcx⟩ : ∃ c, getCell? g.map nx ny = some c ∧ c.exit = true := by
    cases hgc : getCell? g.map nx ny with
    | none => rw [hgc] at hex; exact absurd hex (by simp)
    | some c => rw [hgc] at hex; exact ⟨c, rfl, by simpa using hex⟩
  have hm1 : getCell? (modifyCell g.map nx ny
      (fun c => { c with seen := true })) nx ny = some { c with seen := true } := by
    rw [getCell?_modifyCell_self, hgc]; rfl
  unfold resolveAt
  dsimp only
  rw [if_pos hfl]
  by_cases hit : (getCell? (modifyCell g.map nx ny
      (fun c => { c with seen := true })) nx ny).map (·.item) = some true
  · rw [if_pos hit, if_pos hit, if_pos (show (getCell? (modifyCell (modifyCell g.map nx ny
      (fun c => { c with seen := true })) nx ny (fun c => { c with item := false })) nx ny).map
        (·.exit) = some true by rw [getCell?_modifyCell_self, hm1]; simpa using hcx)]
    exact ⟨rfl, rfl, rfl, rfl, rfl⟩
  · rw [if_neg hit, if_neg hit, if_pos (show (getCell? (modifyCell g.map nx ny
      (fun c => { c with seen := true })) nx ny).map (·.exit) = some true by
        rw [hm1]; simpa using hcx)]
    exact ⟨rfl, rfl, rfl, rfl, rfl⟩

/-- C9: when an in-progress move lands on the goal cell (a Floor cell with
`exit` set), the step moves the player there, increments the turn counter
exactly once, ends with `Won`, leaves every pursuer untouched, and applies
no sanity drain. -/
theorem win_step_frame (g : GameState) (dx dy : ℤ) (rng : Rng) (k : ℕ)
    (hip : g.gameOver = none)
    (hfl : tileAt g.map (clampI (g.player.1 + dx) 0 ((sessionW : ℤ) - 1))
      (clampI (g.player.2 + dy) 0 ((sessionH : ℤ) - 1)) = some .FLOOR)
    (hex : (getCell? g.map (clampI (g.player.1 + dx) 0 ((sessionW : ℤ) - 1))
      (clampI (g.player.2 + dy) 0 ((sessionH : ℤ) - 1))).map (·.exit) = some true) :
    (step sessionW sessionH g dx dy rng k).gameOver = some .win ∧
    (step sessionW sessionH g dx dy rng k).player =
      (clampI (g.player.1 + dx) 0 ((sessionW : ℤ) - 1),
        clampI (g.player.2 + dy) 0 ((sessionH : ℤ) - 1)) ∧
    (step sessionW sessionH g dx dy rng k).turn = g.turn + 1 ∧
    (step sessionW sessionH g dx dy rng k).hounds = g.hounds ∧
    (step sessionW sessionH g dx dy rng k).sanity = g.sanity := by
  unfold step
  rw [if_neg (by simp [hip])]
  exact resolveAt_win g _ _ rng k hfl hex

/-- Witness for C9: one step onto the marked goal cell of `stC9`. -/
theorem win_step_frame_witness :
    (step sessionW sessionH stC9 1 0 rngZ 0).gameOver = some .win ∧
    (step sessionW sessionH stC9 1 0 rngZ 0).player = (6, 5) ∧
    (step sessionW sessionH stC9 1 0 rngZ 0).turn = stC9.turn + 1 ∧
    (step sessionW sessionH stC9 1 0 rngZ 0).hounds = stC9.hounds ∧
    (step sessionW sessionH stC9 1 0 rngZ 0).sanity = stC9.sanity :=
  win_step_frame stC9 1 0 rngZ 0 (by decide) (by decide) (by decide)

theorem resolveAt_caught (g : GameState) (nx ny : ℤ) (rng : Rng) (k : ℕ)
    (hfl : tileAt g.map nx ny = some .FLOOR)
    (hnex : (getCell? g.map nx ny).map (·.exit) = some false)
    (hcaught : (advanceHounds g.map g.hounds nx ny rng k).1.any
      (fun h => h.x == nx && h.y == ny) = true) :
    (resolveAt g nx ny rng k).gameOver = some .dead ∧
    (resolveAt g nx ny rng k).sanity =
      clampI (g.sanity -
        (if (2 / 5 : ℝ) < realLightVal (lightCodeAt g.map nx ny) then 1 else 3)) 0 100 ∧
    (resolveAt g nx ny rng k).turn = g.turn ∧
    (resolveAt g nx ny rng k).player = (nx, ny) ∧
    (resolveAt g nx ny rng k).hounds = (advanceHounds g.map g.hounds nx ny rng k).1 := by
  obtain ⟨c, hgc, hcx⟩ : ∃ c, getCell? g.map nx ny = some c ∧ c.exit = false := by
    cases hgc : getCell? g.map nx ny with
    | none => rw [hgc] at hnex; exact absurd hnex (by simp)
    | some c => rw [hgc] at hnex; exact ⟨c, rfl, by simpa using hnex⟩
  have hm1 : getCell? (modifyCell g.map nx ny
      (fun c => { c with seen := true })) nx ny = some { c with seen := true } := by
    rw [getCell?_modifyCell_self, hgc]; rfl
  have hlc : lightCodeAt g.map nx ny = c.light := by
    rw [lightCodeAt, hgc]; rfl
  unfold resolveAt
  dsimp only
  rw [if_pos hfl]
  by_cases hit : (getCell? (modifyCell g.map nx ny
      (fun c => { c with seen := true })) nx ny).map (·.item) = some true
  · rw [if_pos hit, if_pos hit, if_neg (show ¬ (getCell? (modifyCell (modifyCell g.map nx ny
      (fun c => { c with seen := true })) nx ny (fun c => { c with item := false })) nx ny).map
        (·.exit) = some true by
          rw [getCell?_modifyCell_self, hm1]
          simp [hcx]),
      getCell?_modifyCell_self, hm1]
    rw [if_pos hcaught]
    refine ⟨rfl, ?_, rfl, rfl, rfl⟩
    rw [hlc, ← drain_code_eq]
    rfl
  · rw [if_neg hit, if_neg hit, if_neg (show ¬ (getCell? (modifyCell g.map nx ny
      (fun c => { c with seen := true })) nx ny).map (·.exit) = some true by
        rw [hm1]; simp [hcx]),
      hm1]
    rw [if_pos hcaught]
    refine ⟨rfl, ?_, rfl, rfl, rfl⟩
    rw [hlc, ← drain_code_eq]
    rfl

/-- C1 corrected: on the caught branch the outcome becomes `Lost` and the
turn counter is untouched, but the per-step sanity drain *is* applied (the
source enqueues `setSanity` before the collision check): sanity after the
call is `clamp(before - drain, 0, 100)`, with drain 1 when the destination's
light exceeds 0.4 and 3 otherwise — not the unchanged value the claim
states. -/
theorem caught_step_drains (g : GameState) (dx dy : ℤ) (rng : Rng) (k : ℕ)
    (hip : g.gameOver = none)
    (hfl : tileAt g.map (clampI (g.player.1 + dx) 0 ((sessionW : ℤ) - 1))
      (clampI (g.player.2 + dy) 0 ((sessionH : ℤ) - 1)) = some .FLOOR)
    (hnex : (getCell? g.map (clampI (g.player.1 + dx) 0 ((sessionW : ℤ) - 1))
      (clampI (g.player.2 + dy) 0 ((sessionH : ℤ) - 1))).map (·.exit) = some false)
    (hcaught : (advanceHounds g.map g.hounds
      (clampI (g.player.1 + dx) 0 ((sessionW : ℤ) - 1))
      (clampI (g.player.2 + dy) 0 ((sessionH : ℤ) - 1)) rng k).1.any
        (fun h => h.x == clampI (g.player.1 + dx) 0 ((sessionW : ℤ) - 1) &&
          h.y == clampI (g.player.2 + dy) 0 ((sessionH : ℤ) - 1)) = true) :
    (step sessionW sessionH g dx dy rng k).gameOver = some .dead ∧
    (step sessionW sessionH g dx dy rng k).sanity =
      clampI (g.sanity -
        (if (2 / 5 : ℝ) < realLightVal (lightCodeAt g.map
            (clampI (g.player.1 + dx) 0 ((sessionW : ℤ) - 1))
            (clampI (g.player.2 + dy) 0 ((sessionH : ℤ) - 1))) then 1 else 3)) 0 100 ∧
    (step sessionW sessionH g dx dy rng k).turn = g.turn := by
  have h := resolveAt_caught g (clampI (g.player.1 + dx) 0 ((sessionW : ℤ) - 1))
    (clampI (g.player.2 + dy) 0 ((sessionH : ℤ) - 1)) rng k hfl hnex hcaught
  unfold step
  rw [if_neg (by simp [hip])]
  exact ⟨h.1, h.2.1, h.2.2.1⟩

/-- Counterexample to C1 as stated: in `stC1` the move right is onto a dark
Floor cell, the hound lands on the player (outcome `Lost`), yet sanity
changes from 50 to 47 — it is not preserved on the caught branch. -/
theorem caught_step_cex :
    stC1.gameOver = none ∧
    tileAt stC1.map 6 5 = some .FLOOR ∧
    (advanceHounds stC1.map stC1.hounds 6 5 rngZ 0).1.any
      (fun h => h.x == 6 && h.y == 5) = true ∧
    (step sessionW sessionH stC1 1 0 rngZ 0).gameOver = some .dead ∧
    (step sessionW sessionH stC1 1 0 rngZ 0).sanity = 47 ∧
    stC1.sanity = 50 := by
  refine ⟨rfl, by decide, by decide, by decide, by decide, rfl⟩

/-- Witness for the corrected C1 at the concrete state `stC1`. -/
theorem caught_step_drains_witness :
    (step sessionW sessionH stC1 1 0 rngZ 0).gameOver = some .dead ∧
    (step sessionW sessionH stC1 1 0 rngZ 0).sanity =
      clampI (stC1.sanity -
        (if (2 / 5 : ℝ) < realLightVal (lightCodeAt stC1.map
            (clampI (stC1.player.1 + 1) 0 ((sessionW : ℤ) - 1))
            (clampI (stC1.player.2 + 0) 0 ((sessionH : ℤ) - 1))) then 1 else 3)) 0 100 ∧
    (step sessionW sessionH stC1 1 0 rngZ 0).turn = stC1.turn :=
  caught_step_drains stC1 1 0 rngZ 0 (by decide) (by decide) (by decide) (by decide)

/-- C2 corrected: a move whose raw destination is outside the grid is *not*
rejected; the destination is clamped to the grid, which for a unit direction
degenerates to the player's own cell, and the step then resolves there
exactly like any other move (so the state does change in general). -/
theorem oob_move_clamps (g : GameState) (dx dy : ℤ) (rng : Rng) (k : ℕ)
    (hdir : (dx, dy) ∈ dirs1)
    (hip : g.gameOver = none)
    (hpx : 0 ≤ g.player.1 ∧ g.player.1 < (sessionW : ℤ))
    (hpy : 0 ≤ g.player.2 ∧ g.player.2 < (sessionH : ℤ))
    (hoob : g.player.1 + dx < 0 ∨ (sessionW : ℤ) ≤ g.player.1 + dx ∨
      g.player.2 + dy < 0 ∨ (sessionH : ℤ) ≤ g.player.2 + dy) :
    clampI (g.player.1 + dx) 0 ((sessionW : ℤ) - 1) = g.player.1 ∧
    clampI (g.player.2 + dy) 0 ((sessionH : ℤ) - 1) = g.player.2 ∧
    step sessionW sessionH g dx dy rng k = resolveAt g g.player.1 g.player.2 rng k := by
  have hcx : clampI (g.player.1 + dx) 0 ((sessionW : ℤ) - 1) = g.player.1 ∧
      clampI (g.player.2 + dy) 0 ((sessionH : ℤ) - 1) = g.player.2 := by
    have hW : (sessionW : ℤ) = 46 := rfl
    have hH : (sessionH : ℤ) = 30 := rfl
    simp only [hW, hH] at hoob hpx hpy ⊢
    simp only [dirs1, List.mem_cons, List.mem_singleton, Prod.mk.injEq,
      List.not_mem_nil, or_false] at hdir
    rcases hdir with ⟨h1, h2⟩ | ⟨h1, h2⟩ | ⟨h1, h2⟩ | ⟨h1, h2⟩ <;> subst h1 <;> subst h2
    · constructor
      · rw [clampI_high (by omega) (by omega)]; omega
      · rw [show g.player.2 + 0 = g.player.2 from by ring, clampI_id hpy.1 (by omega)]
    · constructor
      · rw [clampI_low (by omega)]; omega
      · rw [show g.player.2 + 0 = g.player.2 from by ring, clampI_id hpy.1 (by omega)]
    · constructor
      · rw [show g.player.1 + 0 = g.player.1 from by ring, clampI_id hpx.1 (by omega)]
      · rw [clampI_high (by omega) (by omega)]; omega
    · constructor
      · rw [show g.player.1 + 0 = g.player.1 from by ring, clampI_id hpx.1 (by omega)]
      · rw [clampI_low (by omega)]; omega
  refine ⟨hcx.1, hcx.2, ?_⟩
  unfold step
  rw [if_neg (by simp [hip]), hcx.1, hcx.2]

/-- Counterexample to C2 as stated: in `stC2` the player sits on the left
edge; moving left (raw destination column `-1`) is clamped, the turn
resolves on the player's own dark cell, sanity drops 100 → 97 and the turn
counter advances — the state is not unchanged and a turn is consumed. -/
theorem oob_move_cex :
    stC2.gameOver = none ∧
    stC2.player.1 + (-1) < 0 ∧
    (step sessionW sessionH stC2 (-1) 0 rngZ 0).sanity = 97 ∧
    stC2.sanity = 100 ∧
    (step sessionW sessionH stC2 (-1) 0 rngZ 0).turn = 1 ∧
    stC2.turn = 0 := by
  refine ⟨rfl, by decide, by decide, rfl, by decide, rfl⟩

/-- Witness for the corrected C2 at the concrete state `stC2`. -/
theorem oob_move_clamps_witness :
    clampI (stC2.player.1 + (-1)) 0 ((sessionW : ℤ) - 1) = stC2.player.1 ∧
    clampI (stC2.player.2 + 0) 0 ((sessionH : ℤ) - 1) = stC2.player.2 ∧
    step sessionW sessionH stC2 (-1) 0 rngZ 0 = resolveAt stC2 stC2.player.1 stC2.player.2 rngZ 0 :=
  oob_move_clamps stC2 (-1) 0 rngZ 0 (by decide) (by decide) (by decide) (by decide)
    (by decide)

/-! ### The pursuit rule (C8) -/

theorem cons_set_perm {α : Type} (a b : α) :
    ∀ (l : List α) (n : ℕ), l[n]? = some b → (b :: l.set n a).Perm (a :: l)
  | [], n, h => by simp at h
  | x :: t, 0, h => by
      simp only [List.getElem?_cons_zero, Option.some.injEq] at h
      subst h
      exact List.Perm.swap a x t
  | x :: t, n + 1, h => by
      have h' : t[n]? = some b := by simpa using h
      have ih := cons_set_perm a b t n h'
      show (b :: x :: t.set n a).Perm (a :: x :: t)
      exact (List.Perm.swap x b _).trans ((ih.cons x).trans (List.Perm.swap a x t))

theorem set_set_perm {α : Type} :
    ∀ (l : List α) (i j : ℕ) (a b : α), l[i]? = some a → l[j]? = some b →
      ((l.set i b).set j a).Perm l
  | [], i, _, _, _, h1, _ => by simp at h1
  | x :: t, 0, 0, a, b, h1, h2 => by
      simp only [List.getElem?_cons_zero, Option.some.injEq] at h1 h2
      subst h1
      show (x :: t).Perm (x :: t)
      exact List.Perm.refl _
  | x :: t, 0, j + 1, a, b, h1, h2 => by
      simp only [List.getElem?_cons_zero, Option.some.injEq] at h1
      have h2' : t[j]? = some b := by simpa using h2
      subst h1
      show (b :: t.set j x).Perm (x :: t)
      exact cons_set_perm x b t j h2'
  | x :: t, i + 1, 0, a, b, h1, h2 => by
      simp only [List.getElem?_cons_zero, Option.some.injEq] at h2
      have h1' : t[i]? = some a := by simpa using h1
      subst h2
      show (a :: t.set i x).Perm (x :: t)
      exact cons_set_perm x a t i h1'
  | x :: t, i + 1, j + 1, a, b, h1, h2 => by
      have h1' : t[i]? = some a := by simpa using h1
      have h2' : t[j]? = some b := by simpa using h2
      show (x :: (t.set i b).set j a).Perm (x :: t)
      exact (set_set_perm t i j a b h1' h2').cons x

theorem swapIdx_perm {α : Type} (l : List α) (i j : ℕ) : (swapIdx l i j).Perm l := by
  unfold swapIdx
  split
  · next a b h1 h2 => exact set_set_perm l i j a b h1 h2
  · exact List.Perm.refl l

theorem shuffleLoop_perm {α : Type} (rng : Rng) :
    ∀ (i : ℕ) (a : List α) (k : ℕ), ((shuffleLoop rng i a k).1).Perm a
  | 0, a, _ => List.Perm.refl a
  | i + 1, a, k =>
      (shuffleLoop_perm rng i _ (k + 1)).trans (swapIdx_perm a (i + 1) _)

/-- `shuffle` returns a permutation of its input. -/
theorem shuffle_perm {α : Type} (rng : Rng) (k : ℕ) (arr : List α) :
    ((shuffle rng k arr).1).Perm arr :=
  shuffleLoop_perm rng (arr.length - 1) arr k

/-- In a list sorted ascending by `key`, `find?` returns an element whose key
is minimal among all elements satisfying the predicate. -/
theorem find?_sorted_min {α : Type} (key : α → ℤ) (p : α → Bool) :
    ∀ (l : List α), List.Sorted (fun a b => key a ≤ key b) l →
      ∀ a, l.find? p = some a → ∀ b ∈ l, p b = true → key a ≤ key b := by
  intro l
  induction l with
  | nil => intro _ a hf; simp at hf
  | cons x xs ih =>
      intro hs a hf b hb hpb
      rcases List.sorted_cons.mp hs with ⟨hx, hs'⟩
      by_cases hpx : p x = true
      · rw [List.find?_cons_of_pos _ hpx] at hf
        cases hf
        rcases List.mem_cons.mp hb with rfl | hbx
        · exact le_rfl
        · exact hx b hbx
      · rw [List.find?_cons_of_neg _ hpx] at hf
        rcases List.mem_cons.mp hb with rfl | hbx
        · exact absurd hpb hpx
        · exact ih hs' a hf b hbx hpb

/-- Characterization of `stepHound`: the hound stays put when no unit step
lands on an in-bounds Floor cell; otherwise it takes a legal step minimizing
the resulting Manhattan distance to the target over all legal steps. -/
theorem stepHound_spec (m : GameMap) (h : Hound) (tx ty : ℤ) (rng : Rng) (k : ℕ) :
    (legalSteps m h = [] → (stepHound m h tx ty rng k).1 = h) ∧
    (legalSteps m h ≠ [] → ∃ d ∈ legalSteps m h,
      (stepHound m h tx ty rng k).1 = { h with x := h.x + d.1, y := h.y + d.2 } ∧
      ∀ d' ∈ legalSteps m h,
        manhattan (h.x + d.1) (h.y + d.2) tx ty ≤ manhattan (h.x + d'.1) (h.y + d'.2) tx ty) := by
  have hperm : (List.insertionSort (fun a b =>
      manhattan (h.x + a.1) (h.y + a.2) tx ty ≤ manhattan (h.x + b.1) (h.y + b.2) tx ty)
      (shuffle rng k dirs1).1).Perm dirs1 :=
    (List.perm_insertionSort _ _).trans (shuffle_perm rng k dirs1)
  have hsorted : List.Sorted (fun a b =>
      manhattan (h.x + a.1) (h.y + a.2) tx ty ≤ manhattan (h.x + b.1) (h.y + b.2) tx ty)
      (List.insertionSort (fun a b =>
        manhattan (h.x + a.1) (h.y + a.2) tx ty ≤ manhattan (h.x + b.1) (h.y + b.2) tx ty)
        (shuffle rng k dirs1).1) := by
    haveI : IsTotal (ℤ × ℤ) (fun a b =>
        manhattan (h.x + a.1) (h.y + a.2) tx ty ≤ manhattan (h.x + b.1) (h.y + b.2) tx ty) :=
      ⟨fun _ _ => le_total _ _⟩
    haveI : IsTrans (ℤ × ℤ) (fun a b =>
        manhattan (h.x + a.1) (h.y + a.2) tx ty ≤ manhattan (h.x + b.1) (h.y + b.2) tx ty) :=
      ⟨fun _ _ _ => le_trans⟩
    exact List.sorted_insertionSort _ _
  constructor
  · intro hempty
    have hnone : (List.insertionSort (fun a b =>
        manhattan (h.x + a.1) (h.y + a.2) tx ty ≤ manhattan (h.x + b.1) (h.y + b.2) tx ty)
        (shuffle rng k dirs1).1).find? (fun d =>
          inBoundsB m (h.x + d.1) (h.y + d.2) && isFloorB m (h.x + d.1) (h.y + d.2)) = none := by
      rw [List.find?_eq_none]
      intro x hx
      exact List.filter_eq_nil_iff.mp hempty x (hperm.mem_iff.mp hx)
    unfold stepHound
    dsimp only
    rw [hnone]
  · intro hne
    obtain ⟨d0, hd0⟩ := List.exists_mem_of_ne_nil _ hne
    rcases List.mem_filter.mp hd0 with ⟨hd0m, hd0p⟩
    have hsome : ((List.insertionSort (fun a b =>
        manhattan (h.x + a.1) (h.y + a.2) tx ty ≤ manhattan (h.x + b.1) (h.y + b.2) tx ty)
        (shuffle rng k dirs1).1).find? (fun d =>
          inBoundsB m (h.x + d.1) (h.y + d.2) && isFloorB m (h.x + d.1) (h.y + d.2))).isSome := by
      rw [List.find?_isSome]
      exact ⟨d0, hperm.mem_iff.mpr hd0m, hd0p⟩
    obtain ⟨d, hfind⟩ := Option.isSome_iff_exists.mp hsome
    have hdm : d ∈ dirs1 := hperm.mem_iff.mp (List.mem_of_find?_eq_some hfind)
    have hdp : (inBoundsB m (h.x + d.1) (h.y + d.2) && isFloorB m (h.x + d.1) (h.y + d.2)) = true := by
      simpa using List.find?_some hfind
    refine ⟨d, List.mem_filter.mpr ⟨hdm, hdp⟩, ?_, ?_⟩
    · unfold stepHound
      dsimp only
      rw [hfind]
    · intro d' hd'
      rcases List.mem_filter.mp hd' with ⟨hd'm, hd'p⟩
      exact find?_sorted_min _ _ _ hsorted d hfind d' (hperm.mem_iff.mpr hd'm) hd'p

/-- C8: one pursuer's turn.  A positive cooldown is decremented with no move;
with zero cooldown the pursuer acts only when the Manhattan distance to the
target is below 10 or the 30% draw succeeds, and then moves to an in-bounds
Floor cell one unit step away minimizing the resulting distance to the
target over all such cells (staying put when boxed in). -/
theorem hound_turn_spec (m : GameMap) (h : Hound) (tx ty : ℤ) (rng : Rng) (k : ℕ) :
    (0 < h.cooldown →
      houndTurn m h tx ty rng k = ({ h with cooldown := h.cooldown - 1 }, k)) ∧
    (¬ 0 < h.cooldown → ¬ manhattan h.x h.y tx ty < 10 → ¬ lt03 (rng k) →
      houndTurn m h tx ty rng k = (h, k + 1)) ∧
    (¬ 0 < h.cooldown → (manhattan h.x h.y tx ty < 10 ∨ lt03 (rng k)) →
      (legalSteps m h = [] → (houndTurn m h tx ty rng k).1 = h) ∧
      (legalSteps m h ≠ [] → ∃ d ∈ legalSteps m h,
        (houndTurn m h tx ty rng k).1 = { h with x := h.x + d.1, y := h.y + d.2 } ∧
        ∀ d' ∈ legalSteps m h,
          manhattan (h.x + d.1) (h.y + d.2) tx ty ≤
            manhattan (h.x + d'.1) (h.y + d'.2) tx ty)) := by
  refine ⟨?_, ?_, ?_⟩
  · intro hcd
    unfold houndTurn
    rw [if_pos hcd]
  · intro hcd hd hr
    unfold houndTurn
    rw [if_neg hcd, if_neg hd, if_neg hr]
  · intro hcd hor
    unfold houndTurn
    rw [if_neg hcd]
    by_cases hd : manhattan h.x h.y tx ty < 10
    · rw [if_pos hd]
      exact stepHound_spec m h tx ty rng k
    · rw [if_neg hd, if_pos (hor.resolve_left hd)]
      exact stepHound_spec m h tx ty rng (k + 1)

/-- Witness for C8: a cooling-down hound only decrements, and a ready hound
one step past the player closes in. -/
theorem hound_turn_spec_witness :
    houndTurn flatMap46 { x := 7, y := 5, cooldown := 2 } 6 5 rngZ 0 =
      ({ x := 7, y := 5, cooldown := 1 }, 0) ∧
    (houndTurn flatMap46 { x := 7, y := 5, cooldown := 0 } 6 5 rngZ 17).1 =
      { x := 6, y := 5, cooldown := 0 } :=
  ⟨(hound_turn_spec flatMap46 { x := 7, y := 5, cooldown := 2 } 6 5 rngZ 0).1 (by decide),
    by decide⟩

/-! ### Goal selection (C6) -/

/-- A modification that does not change a projection of the cell does not
change that projection of any cell of the map. -/
theorem getCell?_modifyCell_map {β : Type} (m : GameMap) (a b x y : ℤ)
    (f : Cell → Cell) (proj : Cell → β) (hf : ∀ c, proj (f c) = proj c) :
    (getCell? (modifyCell m a b f) x y).map proj = (getCell? m x y).map proj := by
  by_cases hxy : x = a ∧ y = b
  · rcases hxy with ⟨rfl, rfl⟩
    rw [getCell?_modifyCell_self]
    cases getCell? m x y with
    | none => rfl
    | some c => simp [hf]
  · rw [getCell?_modifyCell_ne _ _ _ _ _ _ hxy]

/-- The item loop never touches the `exit` flag of any cell. -/
theorem itemsLoop_exit_pres (rng : Rng) :
    ∀ (n : ℕ) (m : GameMap) (floors : List (ℤ × ℤ)) (k : ℕ) (x y : ℤ),
      (getCell? (itemsLoop rng n m floors k).1 x y).map (·.exit) =
        (getCell? m x y).map (·.exit)
  | 0, m, floors, k, x, y => rfl
  | n + 1, m, floors, k, x, y => by
      show (getCell? (itemsLoop rng n _ _ _).1 x y).map (·.exit) = _
      rw [itemsLoop_exit_pres rng n]
      split
      · rfl
      · exact getCell?_modifyCell_map _ _ _ _ _ _ _ (fun c => rfl)

/-- The goal loop is the strictly-greater maximum scan over its draw list. -/
theorem goalLoop_eq_scan (rng : Rng) (px py : ℤ) (floors : List (ℤ × ℤ)) :
    ∀ (n : ℕ) (best : ℤ × ℤ) (bestD : ℤ) (k : ℕ),
      goalLoop rng px py floors n best bestD k =
        (strictMaxScan px py (goalDrawCoords rng floors k n) best bestD, k + n)
  | 0, best, bestD, k => rfl
  | n + 1, best, bestD, k => by
      unfold goalLoop goalDrawCoords strictMaxScan
      dsimp only
      by_cases hcond : manhattan px py ((floors[pickIdx (rng k) floors.length]?).getD (0, 0)).1
          ((floors[pickIdx (rng k) floors.length]?).getD (0, 0)).2 > bestD
      · rw [if_pos hcond, if_pos hcond, goalLoop_eq_scan rng px py floors n _ _ (k + 1)]
        simp only [Prod.mk.injEq]
        exact ⟨trivial, by omega⟩
      · rw [if_neg hcond, if_neg hcond, goalLoop_eq_scan rng px py floors n _ _ (k + 1)]
        simp only [Prod.mk.injEq]
        exact ⟨trivial, by omega⟩

/-- C6 corrected: the goal search takes exactly 200 uniform draws with
replacement and keeps the strictly-farthest candidate, but it samples from
the floor pool *after the spawn was spliced out*, not from the full original
floor list; the chosen cell, and only it, gets its `exit` flag set (on top
of whatever the input map already had). -/
theorem goal_selection_spec (m : GameMap) (rng : Rng) (k0 : ℕ) (x y : ℤ)
    (hex0 : ¬ (getCell? m x y).map (·.exit) = some true) :
    ((getCell? (placeThings m rng k0).m x y).map (·.exit) = some true ↔
      (x, y) = firstStrictMax (pick (floorsOf m) (rng k0)).1.1
          (pick (floorsOf m) (rng k0)).1.2
          (goalDrawCoords rng (pick (floorsOf m) (rng k0)).2 (k0 + 1) 200) ∧
        getCell? m x y ≠ none) := by
  unfold placeThings
  dsimp only
  rw [itemsLoop_exit_pres]
  rw [goalLoop_eq_scan]
  rw [show strictMaxScan (pick (floorsOf m) (rng k0)).1.1 (pick (floorsOf m) (rng k0)).1.2
      (goalDrawCoords rng (pick (floorsOf m) (rng k0)).2 (k0 + 1) 200)
      ((pick (floorsOf m) (rng k0)).1.1, (pick (floorsOf m) (rng k0)).1.2) (-1) =
    firstStrictMax (pick (floorsOf m) (rng k0)).1.1 (pick (floorsOf m) (rng k0)).1.2
      (goalDrawCoords rng (pick (floorsOf m) (rng k0)).2 (k0 + 1) 200) from rfl]
  by_cases hxy : x = (firstStrictMax (pick (floorsOf m) (rng k0)).1.1
      (pick (floorsOf m) (rng k0)).1.2
      (goalDrawCoords rng (pick (floorsOf m) (rng k0)).2 (k0 + 1) 200)).1 ∧
    y = (firstStrictMax (pick (floorsOf m) (rng k0)).1.1
      (pick (floorsOf m) (rng k0)).1.2
      (goalDrawCoords rng (pick (floorsOf m) (rng k0)).2 (k0 + 1) 200)).2
  · rcases hxy with ⟨hx1, hy1⟩
    rw [← hx1, ← hy1, getCell?_modifyCell_self]
    cases hc : getCell? m x y with
    | none => simp [hc]
    | some c =>
        constructor
        · intro _
          refine ⟨?_, by simp [hc]⟩
          rw [hx1, hy1]
        · intro _
          rfl
  · rw [getCell?_modifyCell_ne _ _ _ _ _ _ hxy]
    constructor
    · intro hc
      exact absurd hc hex0
    · rintro ⟨hpair, -⟩
      exact absurd ⟨congrArg Prod.fst hpair, congrArg Prod.snd hpair⟩ hxy

/-- Counterexample to C6 as stated: on the 5×5 layout with the all-zero
stream the claim's goal (drawn from the full original floor list, spawn
included) is the spawn `(1, 1)` itself, but the cell actually marked is
`(2, 1)` — the source samples from the pool after the spawn was removed. -/
theorem goal_selection_cex :
    specGoalFromFullList (generateLayoutAux 5 5 rngZ 0).1 rngZ (generateLayoutAux 5 5 rngZ 0).2
      = (1, 1) ∧
    (getCell? (placeThings (generateLayoutAux 5 5 rngZ 0).1 rngZ
        (generateLayoutAux 5 5 rngZ 0).2).m 1 1).map (·.exit) = some false ∧
    (getCell? (placeThings (generateLayoutAux 5 5 rngZ 0).1 rngZ
        (generateLayoutAux 5 5 rngZ 0).2).m 2 1).map (·.exit) = some true := by
  refine ⟨by decide, by decide, by decide⟩

/-! ### Placement without replacement (C10) -/

theorem pickIdx_lt (q : ℚ) (len : ℕ) (h0 : 0 ≤ q) (h1 : q < 1) (hl : 0 < len) :
    pickIdx q len < len := by
  unfold pickIdx
  rw [floorMulInt_eq]
  have hup : q * ((len : ℤ) : ℚ) < ((len : ℤ) : ℚ) := by
    have hlq : (0 : ℚ) < ((len : ℤ) : ℚ) := by exact_mod_cast hl
    nlinarith
  have hfl : ⌊q * ((len : ℤ) : ℚ)⌋ < (len : ℤ) := Int.floor_lt.mpr hup
  have hge : (0 : ℤ) ≤ ⌊q * ((len : ℤ) : ℚ)⌋ :=
    Int.floor_nonneg.mpr (mul_nonneg h0 (by positivity))
  omega

theorem nodup_eraseIdx_not_mem {α : Type} :
    ∀ {l : List α} {i : ℕ} {a : α}, l.Nodup → l[i]? = some a → a ∉ l.eraseIdx i
  | [], i, a, _, h => by simp at h
  | x :: t, 0, a, hnd, h => by
      simp only [List.getElem?_cons_zero, Option.some.injEq] at h
      subst h
      simpa [List.eraseIdx] using (List.nodup_cons.mp hnd).1
  | x :: t, i + 1, a, hnd, h => by
      have h' : t[i]? = some a := by simpa using h
      have ha : a ∈ t := List.getElem?_mem h'
      have hax : a ≠ x := fun hc => (List.nodup_cons.mp hnd).1 (hc ▸ ha)
      intro hmem
      rw [List.eraseIdx_cons_succ] at hmem
      rcases List.mem_cons.mp hmem with hc | hc
      · exact hax hc
      · exact nodup_eraseIdx_not_mem (List.nodup_cons.mp hnd).2 h' hc

theorem pick_spec (floors : List (ℤ × ℤ)) (q : ℚ) (h0 : 0 ≤ q) (h1 : q < 1)
    (hl : 0 < floors.length) (hnd : floors.Nodup) :
    (pick floors q).1 ∈ floors ∧
    (pick floors q).2.Nodup ∧
    (pick floors q).1 ∉ (pick floors q).2 ∧
    (pick floors q).2.length + 1 = floors.length ∧
    (∀ a ∈ (pick floors q).2, a ∈ floors) := by
  have hidx : pickIdx q floors.length < floors.length := pickIdx_lt q floors.length h0 h1 hl
  have hget : floors[pickIdx q floors.length]? = some floors[pickIdx q floors.length] :=
    List.getElem?_eq_getElem hidx
  unfold pick
  dsimp only
  rw [hget]
  refine ⟨?_, ?_, ?_, ?_, ?_⟩
  · exact List.getElem?_mem hget
  · exact (List.eraseIdx_sublist floors _).nodup hnd
  · simpa using nodup_eraseIdx_not_mem hnd hget
  · rw [List.length_eraseIdx, if_pos hidx]
    omega
  · intro a ha
    exact (List.eraseIdx_sublist floors _).subset ha

theorem pickSeq_spec (rng : Rng) (hq : ∀ i, 0 ≤ rng i ∧ rng i < 1) (gap : ℕ) :
    ∀ (n : ℕ) (floors : List (ℤ × ℤ)) (k : ℕ), floors.Nodup → n ≤ floors.length →
      (pickSeq rng gap n floors k).Nodup ∧
      (∀ a ∈ pickSeq rng gap n floors k, a ∈ floors) ∧
      (poolAfter rng gap n floors k).Nodup ∧
      (poolAfter rng gap n floors k).length + n = floors.length ∧
      (∀ a ∈ poolAfter rng gap n floors k, a ∈ floors) ∧
      (∀ a ∈ pickSeq rng gap n floors k, a ∉ poolAfter rng gap n floors k)
  | 0, floors, k, hnd, _ => by
      refine ⟨List.nodup_nil, ?_, hnd, rfl, fun a ha => ha, ?_⟩ <;> simp [pickSeq]
  | n + 1, floors, k, hnd, hle => by
      have hlpos : 0 < floors.length := by omega
      obtain ⟨hp1, hp2, hp3, hp4, hp5⟩ :=
        pick_spec floors (rng k) (hq k).1 (hq k).2 hlpos hnd
      have ihle : n ≤ (pick floors (rng k)).2.length := by omega
      obtain ⟨ih1, ih2, ih3, ih4, ih5, ih6⟩ :=
        pickSeq_spec rng hq gap n (pick floors (rng k)).2 (k + 1 + gap) hp2 ihle
      unfold pickSeq poolAfter
      refine ⟨?_, ?_, ih3, by omega, ?_, ?_⟩
      · rw [List.nodup_cons]
        exact ⟨fun hc => hp3 (ih2 _ hc), ih1⟩
      · intro a ha
        rcases List.mem_cons.mp ha with rfl | hc
        · exact hp1
        · exact hp5 a (ih2 a hc)
      · intro a ha
        exact hp5 a (ih5 a ha)
      · intro a ha
        rcases List.mem_cons.mp ha with rfl | hc
        · exact fun hmem => hp3 (ih5 _ hmem)
        · exact ih6 a hc

theorem itemsLoop_pool_k (rng : Rng) :
    ∀ (n : ℕ) (m : GameMap) (floors : List (ℤ × ℤ)) (k : ℕ),
      (itemsLoop rng n m floors k).2.1 = poolAfter rng 0 n floors k ∧
      (itemsLoop rng n m floors k).2.2 = k + n
  | 0, m, floors, k => ⟨rfl, rfl⟩
  | n + 1, m, floors, k => by
      unfold itemsLoop poolAfter
      dsimp only
      rw [(itemsLoop_pool_k rng n _ _ _).1, (itemsLoop_pool_k rng n _ _ _).2]
      exact ⟨by rw [Nat.add_zero], by omega⟩

theorem houndsLoop_pos (rng : Rng) :
    ∀ (n : ℕ) (hs : List Hound) (floors : List (ℤ × ℤ)) (k : ℕ),
      (houndsLoop rng n hs floors k).1.map (fun h => (h.x, h.y)) =
        hs.map (fun h => (h.x, h.y)) ++ pickSeq rng 1 n floors k
  | 0, hs, floors, k => by simp [houndsLoop, pickSeq]
  | n + 1, hs, floors, k => by
      unfold houndsLoop pickSeq
      dsimp only
      rw [houndsLoop_pos rng n _ _ (k + 2)]
      rw [show k + 1 + 1 = k + 2 by omega]
      simp [List.append_assoc]

/-- The floor list is a list of pairwise distinct coordinates. -/
theorem floorsOf_nodup (m : GameMap) : (floorsOf m).Nodup := by
  unfold floorsOf
  rw [List.nodup_flatMap]
  constructor
  · intro y _
    refine List.Nodup.filterMap ?_ (List.nodup_range _)
    intro a a' b hb hb'
    split at hb
    · split at hb'
      · simp only [Option.mem_def, Option.some.injEq] at hb hb'
        rw [← hb'] at hb
        have : (a : ℤ) = (a' : ℤ) := congrArg Prod.fst hb
        exact_mod_cast this
      · simp at hb'
    · simp at hb
  · refine (List.nodup_range m.length).imp ?_
    intro y y' hyy b hb hb'
    obtain ⟨x, -, hx⟩ := List.mem_filterMap.mp hb
    obtain ⟨x', -, hx'⟩ := List.mem_filterMap.mp hb'
    have hy : b.2 = (y : ℤ) := by
      split at hx
      · injection hx with hh
        rw [← hh]
      · exact absurd hx (by simp)
    have hy' : b.2 = (y' : ℤ) := by
      split at hx'
      · injection hx' with hh
        rw [← hh]
      · exact absurd hx' (by simp)
    apply hyy
    rw [hy] at hy'
    exact_mod_cast hy'

/-- C10: the spawn pick, the item picks and the hound picks are drawn
without replacement from a duplicate-free pool, so their coordinates
(the spawn, every item cell and every pursuer start) are pairwise distinct;
but the goal cell is never removed from the pool, and for some streams a
pursuer starts exactly on the goal cell (second conjunct: on the 5×5 layout
with `rngHoundOnGoal`, the single hound starts at the exit-marked `(2, 1)`). -/
theorem placer_distinct_and_goal_overlap :
    (∀ (m : GameMap) (rng : Rng), (∀ i, 0 ≤ rng i ∧ rng i < 1) → ∀ k0 : ℕ,
      1 + max 5 ((pick (floorsOf m) (rng k0)).2.length / 120) +
          max 1 ((poolAfter rng 0 (max 5 ((pick (floorsOf m) (rng k0)).2.length / 120))
            (pick (floorsOf m) (rng k0)).2 (k0 + 201)).length / 800) ≤
        (floorsOf m).length →
      (((placeThings m rng k0).px, (placeThings m rng k0).py) ::
        (pickSeq rng 0 (max 5 ((pick (floorsOf m) (rng k0)).2.length / 120))
          (pick (floorsOf m) (rng k0)).2 (k0 + 201) ++
        (placeThings m rng k0).hounds.map (fun h => (h.x, h.y)))).Nodup) ∧
    ((placeThings (generateLayoutAux 5 5 rngZ 0).1 rngHoundOnGoal
        (generateLayoutAux 5 5 rngZ 0).2).hounds.map (fun h => (h.x, h.y)) = [(2, 1)] ∧
      (getCell? (placeThings (generateLayoutAux 5 5 rngZ 0).1 rngHoundOnGoal
        (generateLayoutAux 5 5 rngZ 0).2).m 2 1).map (·.exit) = some true) := by
  constructor
  · intro m rng hq k0 hlen
    have hA5 : 5 ≤ max 5 ((pick (floorsOf m) (rng k0)).2.length / 120) := Nat.le_max_left _ _
    have hB1 : 1 ≤ max 1 ((poolAfter rng 0 (max 5 ((pick (floorsOf m) (rng k0)).2.length / 120))
        (pick (floorsOf m) (rng k0)).2 (k0 + 201)).length / 800) := Nat.le_max_left _ _
    have hLpos : 0 < (floorsOf m).length := by omega
    obtain ⟨hp1, hp2, hp3, hp4, hp5⟩ :=
      pick_spec (floorsOf m) (rng k0) (hq k0).1 (hq k0).2 hLpos (floorsOf_nodup m)
    have hAle : max 5 ((pick (floorsOf m) (rng k0)).2.length / 120) ≤
        (pick (floorsOf m) (rng k0)).2.length := by omega
    obtain ⟨hi1, hi2, hi3, hi4, hi5, hi6⟩ :=
      pickSeq_spec rng hq 0 (max 5 ((pick (floorsOf m) (rng k0)).2.length / 120))
        (pick (floorsOf m) (rng k0)).2 (k0 + 201) hp2 hAle
    have hBle : max 1 ((poolAfter rng 0 (max 5 ((pick (floorsOf m) (rng k0)).2.length / 120))
        (pick (floorsOf m) (rng k0)).2 (k0 + 201)).length / 800) ≤
      (poolAfter rng 0 (max 5 ((pick (floorsOf m) (rng k0)).2.length / 120))
        (pick (floorsOf m) (rng k0)).2 (k0 + 201)).length := by omega
    obtain ⟨hh1, hh2, hh3, hh4, hh5, hh6⟩ :=
      pickSeq_spec rng hq 1 (max 1 ((poolAfter rng 0
          (max 5 ((pick (floorsOf m) (rng k0)).2.length / 120))
          (pick (floorsOf m) (rng k0)).2 (k0 + 201)).length / 800))
        (poolAfter rng 0 (max 5 ((pick (floorsOf m) (rng k0)).2.length / 120))
          (pick (floorsOf m) (rng k0)).2 (k0 + 201))
        (k0 + 201 + max 5 ((pick (floorsOf m) (rng k0)).2.length / 120)) hi3 hBle
    have hspawn : ((placeThings m rng k0).px, (placeThings m rng k0).py) =
        (pick (floorsOf m) (rng k0)).1 := rfl
    have hhoundpos : (placeThings m rng k0).hounds.map (fun h => (h.x, h.y)) =
        pickSeq rng 1 (max 1 ((poolAfter rng 0
            (max 5 ((pick (floorsOf m) (rng k0)).2.length / 120))
            (pick (floorsOf m) (rng k0)).2 (k0 + 201)).length / 800))
          (poolAfter rng 0 (max 5 ((pick (floorsOf m) (rng k0)).2.length / 120))
            (pick (floorsOf m) (rng k0)).2 (k0 + 201))
          (k0 + 201 + max 5 ((pick (floorsOf m) (rng k0)).2.length / 120)) := by
      show ((houndsLoop rng _ [] _ _).1).map (fun h => (h.x, h.y)) = _
      rw [houndsLoop_pos]
      rw [(itemsLoop_pool_k rng _ _ _ _).1, (itemsLoop_pool_k rng _ _ _ _).2]
      rw [goalLoop_eq_scan]
      rw [show k0 + 1 + 200 = k0 + 201 by omega]
      rfl
    rw [hspawn, hhoundpos, List.nodup_cons, List.nodup_append]
    refine ⟨?_, hi1, hh1, ?_⟩
    · intro hmem
      rcases List.mem_append.mp hmem with hc | hc
      · exact hp3 (hi2 _ hc)
      · exact hp3 (hi5 _ (hh2 _ hc))
    · intro a ha hb
      exact hi6 a ha (hh2 a hb)
  · exact ⟨by decide, by decide⟩

/-! ### Maze connectivity (C5): helper lemmas -/

theorem tileAt_some_bounds {m : GameMap} {x y : ℤ} {t : Tile}
    (h : tileAt m x y = some t) :
    0 ≤ x ∧ 0 ≤ y ∧ y.toNat < m.length := by
  unfold tileAt getCell? at h
  split at h
  case isTrue hc =>
    cases hrow : m[y.toNat]? with
    | none => rw [hrow] at h; simp at h
    | some row =>
        have hlt : y.toNat < m.length := by
          by_contra hcc
          push_neg at hcc
          rw [List.getElem?_eq_none hcc] at hrow
          exact Option.noConfusion hrow
        exact ⟨hc.2, hc.1, hlt⟩
  case isFalse => simp at h

theorem tileAt_some_inBounds {m : GameMap} (hr : Rect m) {x y : ℤ} {t : Tile}
    (h : tileAt m x y = some t) : inBoundsP m x y := by
  obtain ⟨hx, hy, hyl⟩ := tileAt_some_bounds h
  unfold tileAt getCell? at h
  rw [if_pos ⟨hy, hx⟩] at h
  cases hrow : m[y.toNat]? with
  | none => rw [hrow] at h; simp at h
  | some row =>
      rw [hrow] at h
      cases hcell : row[x.toNat]? with
      | none => rw [Option.some_bind, hcell] at h; simp at h
      | some c =>
          have hxl : x.toNat < row.length := by
            by_contra hcc
            push_neg at hcc
            rw [List.getElem?_eq_none hcc] at hcell
            exact Option.noConfusion hcell
          have hwr : row.length = width m := hr row (List.getElem?_mem hrow)
          exact ⟨hy, by omega, hx, by omega⟩

theorem length_modifyRow (row : List Cell) (x : ℕ) (f : Cell → Cell) :
    (modifyRow row x f).length = row.length := by
  unfold modifyRow
  split
  · exact List.length_set row x _
  · rfl

theorem length_modifyCell (m : GameMap) (x y : ℤ) (f : Cell → Cell) :
    (modifyCell m x y f).length = m.length := by
  unfold modifyCell
  by_cases hg : 0 ≤ x ∧ 0 ≤ y
  · rw [if_pos hg]
    cases hrow : m[y.toNat]? with
    | none => rfl
    | some row => exact List.length_set m y.toNat _
  · rw [if_neg hg]

theorem width_modifyCell (m : GameMap) (x y : ℤ) (f : Cell → Cell) :
    width (modifyCell m x y f) = width m := by
  unfold modifyCell
  by_cases hg : 0 ≤ x ∧ 0 ≤ y
  · rw [if_pos hg]
    cases hrow : m[y.toNat]? with
    | none => rfl
    | some row =>
        cases m with
        | nil => simp at hrow
        | cons r0 rest =>
            cases hy : y.toNat with
            | zero =>
                rw [hy] at hrow
                simp only [List.getElem?_cons_zero, Option.some.injEq] at hrow
                subst hrow
                show width (modifyRow r0 x.toNat f :: rest) = width (r0 :: rest)
                unfold width
                simp [length_modifyRow]
            | succ j =>
                show width (r0 :: rest.set j _) = width (r0 :: rest)
                rfl
  · rw [if_neg hg]

theorem rect_modifyCell {m : GameMap} (hr : Rect m) (x y : ℤ) (f : Cell → Cell) :
    Rect (modifyCell m x y f) := by
  intro row hrow
  rw [width_modifyCell]
  unfold modifyCell at hrow
  by_cases hg : 0 ≤ x ∧ 0 ≤ y
  · rw [if_pos hg] at hrow
    cases hr2 : m[y.toNat]? with
    | none => rw [hr2] at hrow; exact hr row hrow
    | some row0 =>
        rw [hr2] at hrow
        rcases List.mem_or_eq_of_mem_set hrow with hmem | heq
        · exact hr row hmem
        · rw [heq, length_modifyRow]
          exact hr row0 (List.getElem?_mem hr2)
  · rw [if_neg hg] at hrow
    exact hr row hrow

theorem rect_makeEmptyMap (w h : ℕ) : Rect (makeEmptyMap w h) := by
  intro row hrow
  unfold makeEmptyMap at hrow ⊢
  have hre := List.eq_of_mem_replicate hrow
  subst hre
  unfold width
  cases h with
  | zero => simp at hrow
  | succ n => simp [List.replicate_succ]

theorem tileAt_makeEmptyMap (w h : ℕ) (x y : ℤ) :
    tileAt (makeEmptyMap w h) x y ≠ some .FLOOR := by
  unfold tileAt getCell? makeEmptyMap
  split
  · rw [List.getElem?_replicate]
    split
    · rw [Option.some_bind, List.getElem?_replicate]
      split
      · intro hcontra
        simp at hcontra
      · simp
    · simp
  · simp

theorem tileAt_carve_self {m : GameMap} {x y : ℤ} {t : Tile}
    (h : tileAt m x y = some t) : tileAt (carve m x y) x y = some .FLOOR := by
  unfold tileAt at h ⊢
  unfold carve
  rw [getCell?_modifyCell_self]
  cases hg : getCell? m x y with
  | none => rw [hg] at h; simp at h
  | some c => simp

theorem tileAt_carve_ne {m : GameMap} {a b x y : ℤ} (h : ¬(x = a ∧ y = b)) :
    tileAt (carve m a b) x y = tileAt m x y := by
  unfold tileAt carve
  rw [getCell?_modifyCell_ne _ _ _ _ _ _ h]

theorem tileAt_carve_floor_mono {m : GameMap} {a b x y : ℤ}
    (h : tileAt m x y = some .FLOOR) : tileAt (carve m a b) x y = some .FLOOR := by
  by_cases hxy : x = a ∧ y = b
  · rcases hxy with ⟨rfl, rfl⟩
    exact tileAt_carve_self h
  · rw [tileAt_carve_ne hxy]
    exact h

theorem tileAt_carve_cases {m : GameMap} {a b x y : ℤ}
    (h : tileAt (carve m a b) x y = some .FLOOR) :
    (x = a ∧ y = b) ∨ tileAt m x y = some .FLOOR := by
  by_cases hxy : x = a ∧ y = b
  · exact Or.inl hxy
  · right
    rw [tileAt_carve_ne hxy] at h
    exact h

theorem reach_carve_mono {m : GameMap} {a b : ℤ} {p q : ℤ × ℤ}
    (h : Reach m p q) : Reach (carve m a b) p q := by
  refine Relation.ReflTransGen.mono ?_ h
  intro u v huv
  exact ⟨tileAt_carve_floor_mono huv.1, tileAt_carve_floor_mono huv.2.1, huv.2.2⟩

theorem floorAdj_symm (m : GameMap) : Symmetric (FloorAdj m) := by
  intro u v huv
  refine ⟨huv.2.1, huv.1, ?_⟩
  rw [abs_sub_comm, abs_sub_comm v.2]
  exact huv.2.2

theorem reach_symm {m : GameMap} {p q : ℤ × ℤ} (h : Reach m p q) : Reach m q p :=
  Relation.ReflTransGen.symmetric (floorAdj_symm m) h

theorem inBoundsB_carve (m : GameMap) (a b x y : ℤ) :
    inBoundsB (carve m a b) x y = inBoundsB m x y := by
  unfold inBoundsB carve
  simp [inBoundsP, length_modifyCell, width_modifyCell]

theorem inBoundsP_carve (m : GameMap) (a b x y : ℤ) :
    inBoundsP (carve m a b) x y ↔ inBoundsP m x y := by
  unfold carve inBoundsP
  rw [length_modifyCell, width_modifyCell]

theorem isSome_getCell?_of_inBounds {m : GameMap} (hr : Rect m) {x y : ℤ}
    (hb : inBoundsP m x y) : (getCell? m x y).isSome := by
  obtain ⟨hy0, hyl, hx0, hxw⟩ := hb
  have hylt : y.toNat < m.length := by omega
  unfold getCell?
  rw [if_pos ⟨hy0, hx0⟩, List.getElem?_eq_getElem hylt, Option.some_bind]
  have hrow := hr (m[y.toNat]) (List.getElem_mem hylt)
  have hxlt : x.toNat < (m[y.toNat]).length := by omega
  rw [List.getElem?_eq_getElem hxlt]
  rfl

/-- Carving a new cell and the midpoint between it and an existing Floor
cell keeps the floor set mutually connected. -/
theorem carve_pair_conn {m : GameMap} (hrect : Rect m) (hconn : FloorConn m)
    {cx cy nx ny mx my : ℤ}
    (htop : tileAt m cx cy = some .FLOOR)
    (hdest : ∃ t, tileAt m nx ny = some t)
    (hmid_in : inBoundsP m mx my)
    (hne : ¬(nx = mx ∧ ny = my))
    (hd1 : |cx - mx| + |cy - my| = 1)
    (hd2 : |mx - nx| + |my - ny| = 1) :
    FloorConn (carve (carve m nx ny) mx my) := by
  obtain ⟨t0, hdest⟩ := hdest
  have hfl_dest : tileAt (carve (carve m nx ny) mx my) nx ny = some .FLOOR := by
    rw [tileAt_carve_ne hne]
    exact tileAt_carve_self hdest
  have hrect1 : Rect (carve m nx ny) := by
    unfold carve
    exact rect_modifyCell hrect _ _ _
  have hmid_in1 : inBoundsP (carve m nx ny) mx my := (inBoundsP_carve m nx ny mx my).mpr hmid_in
  obtain ⟨cmid, hcmid⟩ := Option.isSome_iff_exists.mp (isSome_getCell?_of_inBounds hrect1 hmid_in1)
  have htm : tileAt (carve m nx ny) mx my = some cmid.t := by
    unfold tileAt
    rw [hcmid]
    rfl
  have hfl_mid : tileAt (carve (carve m nx ny) mx my) mx my = some .FLOOR :=
    tileAt_carve_self htm
  have hfl_top : tileAt (carve (carve m nx ny) mx my) cx cy = some .FLOOR :=
    tileAt_carve_floor_mono (tileAt_carve_floor_mono htop)
  have hadj1 : FloorAdj (carve (carve m nx ny) mx my) (cx, cy) (mx, my) := ⟨hfl_top, hfl_mid, hd1⟩
  have hadj2 : FloorAdj (carve (carve m nx ny) mx my) (mx, my) (nx, ny) := ⟨hfl_mid, hfl_dest, hd2⟩
  have hreach_top : ∀ p : ℤ × ℤ, tileAt (carve (carve m nx ny) mx my) p.1 p.2 = some .FLOOR →
      Reach (carve (carve m nx ny) mx my) p (cx, cy) := by
    intro p hp
    rcases tileAt_carve_cases hp with ⟨h1, h2⟩ | hp1
    · have hpe : p = (mx, my) := by
        rw [← h1, ← h2]
      rw [hpe]
      exact Relation.ReflTransGen.single (floorAdj_symm _ hadj1)
    · rcases tileAt_carve_cases hp1 with ⟨h1, h2⟩ | hpm
      · have hpe : p = (nx, ny) := by
          rw [← h1, ← h2]
        rw [hpe]
        exact (Relation.ReflTransGen.single (floorAdj_symm _ hadj2)).trans
          (Relation.ReflTransGen.single (floorAdj_symm _ hadj1))
      · exact reach_carve_mono (reach_carve_mono (hconn p (cx, cy) hpm htop))
  intro a b ha hb
  exact (hreach_top a ha).trans (reach_symm (hreach_top b hb))

/-- The maze loop preserves mutual connectivity of the carved floor set.
The stack invariant: every stack cell is already Floor, or (the degenerate
start of a thin grid) has no in-bounds logical neighbour and so can never
cause a carve. -/
theorem mazeLoop_conn (rng : Rng) :
    ∀ (fuel : ℕ) (m : GameMap) (stack : List (ℤ × ℤ)) (k : ℕ),
      Rect m → FloorConn m →
      (∀ c ∈ stack, tileAt m c.1 c.2 = some .FLOOR ∨
        ∀ d ∈ dirs2, inBoundsB m (c.1 + d.1) (c.2 + d.2) = false) →
      FloorConn (mazeLoop rng fuel m stack k).1
  | 0, m, stack, k, _, hconn, _ => hconn
  | fuel + 1, m, [], k, _, hconn, _ => hconn
  | fuel + 1, m, (cx, cy) :: rest, k, hrect, hconn, hstack => by
      unfold mazeLoop
      dsimp only
      cases hfind : (shuffle rng k dirs2).1.find? (fun d =>
          inBoundsB m (cx + d.1) (cy + d.2) &&
          (tileAt m (cx + d.1) (cy + d.2) == some .WALL)) with
      | none =>
          exact mazeLoop_conn rng fuel m rest _ hrect hconn
            (fun c hc => hstack c (List.mem_cons_of_mem _ hc))
      | some d =>
          have hdmem : d ∈ dirs2 :=
            (shuffle_perm rng k dirs2).mem_iff.mp (List.mem_of_find?_eq_some hfind)
          have hdp : inBoundsB m (cx + d.1) (cy + d.2) = true ∧
              tileAt m (cx + d.1) (cy + d.2) = some .WALL := by
            have := List.find?_some hfind
            simpa [Bool.and_eq_true] using this
          have hfloor : tileAt m cx cy = some .FLOOR := by
            rcases hstack (cx, cy) (List.mem_cons_self _ _) with hf | hdead
            · exact hf
            · rw [hdead d hdmem] at hdp
              exact absurd hdp.1 (by simp)
          have htopin := tileAt_some_inBounds hrect hfloor
          have hdestin := tileAt_some_inBounds hrect hdp.2
          obtain ⟨ht1, ht2, ht3, ht4⟩ := htopin
          obtain ⟨hb1, hb2, hb3, hb4⟩ := hdestin
          have hfacts : ¬(cx + d.1 = cx + d.1 / 2 ∧ cy + d.2 = cy + d.2 / 2) ∧
              |cx - (cx + d.1 / 2)| + |cy - (cy + d.2 / 2)| = 1 ∧
              |cx + d.1 / 2 - (cx + d.1)| + |cy + d.2 / 2 - (cy + d.2)| = 1 ∧
              inBoundsP m (cx + d.1 / 2) (cy + d.2 / 2) := by
            simp only [dirs2, List.mem_cons, List.not_mem_nil, or_false] at hdmem
            unfold inBoundsP
            rcases hdmem with rfl | rfl | rfl | rfl <;> dsimp only at hb1 hb2 hb3 hb4 ⊢
            · refine ⟨by omega, ?_, ?_, by omega, by omega, by omega, by omega⟩
              · rw [show cx - (cx + 2 / 2) = -1 by omega, show cy - (cy + 0 / 2) = 0 by omega]
                decide
              · rw [show cx + 2 / 2 - (cx + 2) = -1 by omega,
                  show cy + 0 / 2 - (cy + 0) = 0 by omega]
                decide
            · refine ⟨by omega, ?_, ?_, by omega, by omega, by omega, by omega⟩
              · rw [show cx - (cx + -2 / 2) = 1 by omega, show cy - (cy + 0 / 2) = 0 by omega]
                decide
              · rw [show cx + -2 / 2 - (cx + -2) = 1 by omega,
                  show cy + 0 / 2 - (cy + 0) = 0 by omega]
                decide
            · refine ⟨by omega, ?_, ?_, by omega, by omega, by omega, by omega⟩
              · rw [show cx - (cx + 0 / 2) = 0 by omega, show cy - (cy + 2 / 2) = -1 by omega]
                decide
              · rw [show cx + 0 / 2 - (cx + 0) = 0 by omega,
                  show cy + 2 / 2 - (cy + 2) = -1 by omega]
                decide
            · refine ⟨by omega, ?_, ?_, by omega, by omega, by omega, by omega⟩
              · rw [show cx - (cx + 0 / 2) = 0 by omega, show cy - (cy + -2 / 2) = 1 by omega]
                decide
              · rw [show cx + 0 / 2 - (cx + 0) = 0 by omega,
                  show cy + -2 / 2 - (cy + -2) = 1 by omega]
                decide
          obtain ⟨hne, hd1, hd2, hmidin⟩ := hfacts
          have hconn2 := carve_pair_conn hrect hconn hfloor ⟨_, hdp.2⟩ hmidin hne hd1 hd2
          have hrect2 : Rect (carve (carve m (cx + d.1) (cy + d.2))
              (cx + d.1 / 2) (cy + d.2 / 2)) := by
            unfold carve
            exact rect_modifyCell (rect_modifyCell hrect _ _ _) _ _ _
          refine mazeLoop_conn rng fuel _ _ _ hrect2 hconn2 ?_
          intro c hc
          rcases List.mem_cons.mp hc with rfl | hc1
          · left
            show tileAt _ (cx + d.1) (cy + d.2) = some .FLOOR
            rw [tileAt_carve_ne hne]
            exact tileAt_carve_self hdp.2
          rcases List.mem_cons.mp hc1 with rfl | hc2
          · left
            exact tileAt_carve_floor_mono (tileAt_carve_floor_mono hfloor)
          · rcases hstack c (List.mem_cons_of_mem _ hc2) with hf | hdead
            · left
              exact tileAt_carve_floor_mono (tileAt_carve_floor_mono hf)
            · right
              intro d' hd'
              rw [inBoundsB_carve, inBoundsB_carve]
              exact hdead d' hd'

theorem oddAlign_pos (n : ℕ) : 1 ≤ oddAlign n := by
  unfold oddAlign
  split <;> omega

theorem oddAlign_lt {n : ℕ} (hn : 2 ≤ n) : oddAlign n < n := by
  unfold oddAlign
  split <;> omega

theorem oddAlign_eq_one {n : ℕ} (hn : n ≤ 1) : oddAlign n = 1 := by
  unfold oddAlign
  split <;> omega

theorem width_makeEmptyMap (w h : ℕ) : width (makeEmptyMap w h) = if h = 0 then 0 else w := by
  unfold width makeEmptyMap
  cases h with
  | zero => rfl
  | succ n => simp [List.replicate_succ]

/-- C5 corrected (amended): all Floor cells carved by the backtracking phase
of `generateLayout` are mutually reachable via Floor-to-Floor axis-aligned
steps (the room-punching pass can break this, see the counterexample). -/
theorem maze_phase_connected (w h : ℕ) (rng : Rng) (k0 : ℕ) :
    FloorConn (mazePhase w h rng k0).1 := by
  have hrectE := rect_makeEmptyMap w h
  have hrect : Rect (carve (makeEmptyMap w h) ((oddAlign w : ℕ) : ℤ) ((oddAlign h : ℕ) : ℤ)) := by
    unfold carve
    exact rect_modifyCell hrectE _ _ _
  have hchar : ∀ p : ℤ × ℤ,
      tileAt (carve (makeEmptyMap w h) ((oddAlign w : ℕ) : ℤ) ((oddAlign h : ℕ) : ℤ))
        p.1 p.2 = some .FLOOR →
      p = (((oddAlign w : ℕ) : ℤ), ((oddAlign h : ℕ) : ℤ)) := by
    intro p hp
    rcases tileAt_carve_cases hp with ⟨h1, h2⟩ | hfl
    · rw [← h1, ← h2]
    · exact absurd hfl (tileAt_makeEmptyMap w h _ _)
  have hconn : FloorConn (carve (makeEmptyMap w h)
      ((oddAlign w : ℕ) : ℤ) ((oddAlign h : ℕ) : ℤ)) := by
    intro a b ha hb
    rw [hchar a ha, hchar b hb]
    exact Relation.ReflTransGen.refl
  have hstack : ∀ c ∈ [(((oddAlign w : ℕ) : ℤ), ((oddAlign h : ℕ) : ℤ))],
      tileAt (carve (makeEmptyMap w h) ((oddAlign w : ℕ) : ℤ) ((oddAlign h : ℕ) : ℤ))
        c.1 c.2 = some .FLOOR ∨
      ∀ d ∈ dirs2, inBoundsB (carve (makeEmptyMap w h)
        ((oddAlign w : ℕ) : ℤ) ((oddAlign h : ℕ) : ℤ)) (c.1 + d.1) (c.2 + d.2) = false := by
    intro c hc
    rw [List.mem_singleton] at hc
    subst hc
    by_cases hin : inBoundsP (makeEmptyMap w h) ((oddAlign w : ℕ) : ℤ) ((oddAlign h : ℕ) : ℤ)
    · left
      obtain ⟨c0, hc0⟩ := Option.isSome_iff_exists.mp (isSome_getCell?_of_inBounds hrectE hin)
      have ht0 : tileAt (makeEmptyMap w h) ((oddAlign w : ℕ) : ℤ) ((oddAlign h : ℕ) : ℤ) =
          some c0.t := by
        unfold tileAt
        rw [hc0]
        rfl
      exact tileAt_carve_self ht0
    · right
      intro d hd
      rw [inBoundsB_carve]
      unfold inBoundsB
      simp only [decide_eq_false_iff_not]
      have hlen : (makeEmptyMap w h).length = h := List.length_replicate h _
      have hwid : width (makeEmptyMap w h) = if h = 0 then 0 else w := width_makeEmptyMap w h
      unfold inBoundsP at hin ⊢
      rw [hlen, hwid] at hin ⊢
      have hx1 : 1 ≤ oddAlign w := oddAlign_pos w
      have hy1 : 1 ≤ oddAlign h := oddAlign_pos h
      have hWle : (if h = 0 then 0 else w) ≤ w := by split <;> omega
      have hdeg : w ≤ 1 ∨ h ≤ 1 := by
        by_contra hcc
        push_neg at hcc
        have hwlt := oddAlign_lt hcc.1
        have hhlt := oddAlign_lt hcc.2
        apply hin
        refine ⟨by omega, by omega, by omega, ?_⟩
        rw [if_neg (by omega)]
        omega
      simp only [dirs2, List.mem_cons, List.not_mem_nil, or_false] at hd
      rcases hdeg with hw1 | hh1
      · have hxw : oddAlign w = 1 := oddAlign_eq_one hw1
        rcases hd with rfl | rfl | rfl | rfl <;> dsimp only <;> intro hcontra <;>
          obtain ⟨k1, k2, k3, k4⟩ := hcontra <;> omega
      · have hyh : oddAlign h = 1 := oddAlign_eq_one hh1
        rcases hd with rfl | rfl | rfl | rfl <;> dsimp only <;> intro hcontra <;>
          obtain ⟨k1, k2, k3, k4⟩ := hcontra <;> omega
  unfold mazePhase
  dsimp only
  exact mazeLoop_conn rng (mazeFuel w h) _ _ k0 hrect hconn hstack

/-- Witness for C5: on the concrete 5×5 layout with the all-zero stream, the
floor cells (1,1) and (3,3) are connected after the maze phase. -/
theorem maze_phase_connected_witness :
    tileAt (mazePhase 5 5 rngZ 0).1 1 1 = some .FLOOR ∧
    tileAt (mazePhase 5 5 rngZ 0).1 3 3 = some .FLOOR ∧
    Reach (mazePhase 5 5 rngZ 0).1 (1, 1) (3, 3) :=
  ⟨by decide, by decide,
    maze_phase_connected 5 5 rngZ 0 (1, 1) (3, 3) (by decide) (by decide)⟩

/-- C5 counterexample: in the 800×1 layout under the stream `rngRooms` —
on which every draw of the generator, including the four lighting draws at
`(2, 0)`, stays inside the single-row map, so the run completes — the
room-punching pass carves a second floor region around x = 397 that no
corridor joins to the floor region at the start: (1,0) and (397,0) are
both Floor yet not mutually reachable. -/
theorem connectivity_cex :
    ¬ (∀ a b : ℤ × ℤ,
        tileAt (generateLayout 800 1 rngRooms) a.1 a.2 = some .FLOOR →
        tileAt (generateLayout 800 1 rngRooms) b.1 b.2 = some .FLOOR →
        Reach (generateLayout 800 1 rngRooms) a b) := by
  intro hcl
  have h1 : tileAt (generateLayout 800 1 rngRooms) 1 0 = some .FLOOR := by decide
  have h2 : tileAt (generateLayout 800 1 rngRooms) 397 0 = some .FLOOR := by decide
  have hlen : (generateLayout 800 1 rngRooms).length = 1 := by decide
  have hwall : tileAt (generateLayout 800 1 rngRooms) 6 0 = some .WALL := by decide
  have hinv : ∀ c : ℤ × ℤ, Reach (generateLayout 800 1 rngRooms) (1, 0) c → c.1 ≤ 5 := by
    intro c hr
    induction hr with
    | refl => decide
    | @tail b c' hpre hstep ih =>
        obtain ⟨_, hc, hdist⟩ := hstep
        obtain ⟨_, hy0, hylt⟩ := tileAt_some_bounds hc
        rw [hlen] at hylt
        by_contra hgt
        push_neg at hgt
        have habs1 : |b.1 - c'.1| ≤ 1 := by
          have := abs_nonneg (b.2 - c'.2)
          omega
        have hd1 : b.1 - c'.1 ≤ 1 ∧ -1 ≤ b.1 - c'.1 := abs_le.mp habs1 |>.symm.imp id id
        have hx6 : c'.1 = 6 := by omega
        have hy0' : c'.2 = 0 := by omega
        rw [hx6, hy0', hwall] at hc
        simp at hc
  have h397 := hinv (397, 0) (hcl (1, 0) (397, 0) h1 h2)
  dsimp only at h397
  omega

/-- Witness for C10's distinctness part at the 5×5 layout with the all-zero
stream: a 7-cell pool exactly covers the spawn, five item picks and one
hound pick, and all seven coordinates are distinct. -/
theorem placer_distinct_witness :
    (((placeThings (generateLayoutAux 5 5 rngZ 0).1 rngZ (generateLayoutAux 5 5 rngZ 0).2).px,
        (placeThings (generateLayoutAux 5 5 rngZ 0).1 rngZ (generateLayoutAux 5 5 rngZ 0).2).py) ::
      (pickSeq rngZ 0 (max 5 ((pick (floorsOf (generateLayoutAux 5 5 rngZ 0).1)
            (rngZ (generateLayoutAux 5 5 rngZ 0).2)).2.length / 120))
          (pick (floorsOf (generateLayoutAux 5 5 rngZ 0).1)
            (rngZ (generateLayoutAux 5 5 rngZ 0).2)).2
          ((generateLayoutAux 5 5 rngZ 0).2 + 201) ++
        (placeThings (generateLayoutAux 5 5 rngZ 0).1 rngZ
          (generateLayoutAux 5 5 rngZ 0).2).hounds.map (fun h => (h.x, h.y)))).Nodup :=
  placer_distinct_and_goal_overlap.1 (generateLayoutAux 5 5 rngZ 0).1 rngZ
    (fun _ => ⟨by norm_num [rngZ], by norm_num [rngZ]⟩)
    (generateLayoutAux 5 5 rngZ 0).2 (by decide)

/-- Witness for the corrected C6 at the 5×5 layout: the marked cell `(2, 1)`
is the strict-max candidate of the 200 draws from the spawn-removed pool. -/
theorem goal_selection_spec_witness :
    ¬ (getCell? (generateLayoutAux 5 5 rngZ 0).1 2 1).map (·.exit) = some true ∧
    ((getCell? (placeThings (generateLayoutAux 5 5 rngZ 0).1 rngZ
        (generateLayoutAux 5 5 rngZ 0).2).m 2 1).map (·.exit) = some true ↔
      (2, 1) = firstStrictMax
          (pick (floorsOf (generateLayoutAux 5 5 rngZ 0).1)
            (rngZ (generateLayoutAux 5 5 rngZ 0).2)).1.1
          (pick (floorsOf (generateLayoutAux 5 5 rngZ 0).1)
            (rngZ (generateLayoutAux 5 5 rngZ 0).2)).1.2
          (goalDrawCoords rngZ
            (pick (floorsOf (generateLayoutAux 5 5 rngZ 0).1)
              (rngZ (generateLayoutAux 5 5 rngZ 0).2)).2
            ((generateLayoutAux 5 5 rngZ 0).2 + 1) 200) ∧
        getCell? (generateLayoutAux 5 5 rngZ 0).1 2 1 ≠ none) :=
  ⟨by decide, goal_selection_spec (generateLayoutAux 5 5 rngZ 0).1 rngZ
    (generateLayoutAux 5 5 rngZ 0).2 2 1 (by decide)⟩

/-! ### Claim C7 — the lighting pass -/

theorem tileAt_modifyCell_t (m : GameMap) (a b x y : ℤ) (f : Cell → Cell)
    (hf : ∀ c, (f c).t = c.t) :
    tileAt (modifyCell m a b f) x y = tileAt m x y := by
  unfold tileAt
  exact getCell?_modifyCell_map m a b x y f (·.t) hf

theorem inBoundsP_modifyCell (m : GameMap) (a b x y : ℤ) (f : Cell → Cell) :
    inBoundsP (modifyCell m a b f) x y ↔ inBoundsP m x y := by
  unfold inBoundsP
  rw [length_modifyCell, width_modifyCell]

theorem lightCodeAt_modifyCell_ne (m : GameMap) (a b x y : ℤ) (f : Cell → Cell)
    (h : ¬(x = a ∧ y = b)) :
    lightCodeAt (modifyCell m a b f) x y = lightCodeAt m x y := by
  unfold lightCodeAt
  rw [getCell?_modifyCell_ne m a b x y f h]

theorem lightCodeAt_carve (m : GameMap) (a b x y : ℤ) :
    lightCodeAt (carve m a b) x y = lightCodeAt m x y := by
  unfold lightCodeAt carve
  rw [getCell?_modifyCell_map m a b x y (fun c => { c with t := .FLOOR })
    (·.light) (fun c => rfl)]

theorem lightCodeAt_makeEmptyMap (w h : ℕ) (x y : ℤ) :
    lightCodeAt (makeEmptyMap w h) x y = DARK := by
  unfold lightCodeAt getCell? makeEmptyMap
  split
  · rw [List.getElem?_replicate]
    split
    · rw [Option.some_bind, List.getElem?_replicate]
      split <;> rfl
    · rfl
  · rfl

theorem lightCodeAt_foldl {α : Type} (f : GameMap → α → GameMap)
    (hf : ∀ (m : GameMap) (a : α) (x y : ℤ), lightCodeAt (f m a) x y = lightCodeAt m x y) :
    ∀ (L : List α) (m : GameMap) (x y : ℤ),
      lightCodeAt (L.foldl f m) x y = lightCodeAt m x y := by
  intro L
  induction L with
  | nil => intro m x y; rfl
  | cons a L ih => intro m x y; rw [List.foldl_cons, ih, hf]

theorem lightCodeAt_carveRect (m : GameMap) (rx ry rw rh : ℤ) (x y : ℤ) :
    lightCodeAt (carveRect m rx ry rw rh) x y = lightCodeAt m x y := by
  unfold carveRect
  apply lightCodeAt_foldl
  intro m1 dy x1 y1
  apply lightCodeAt_foldl
  intro m2 dx x2 y2
  exact lightCodeAt_carve m2 _ _ x2 y2

theorem lightCodeAt_mazeLoop (rng : Rng) :
    ∀ (fuel : ℕ) (m : GameMap) (stack : List (ℤ × ℤ)) (k : ℕ) (x y : ℤ),
      lightCodeAt (mazeLoop rng fuel m stack k).1 x y = lightCodeAt m x y
  | 0, m, stack, k, x, y => rfl
  | fuel + 1, m, [], k, x, y => rfl
  | fuel + 1, m, (cx, cy) :: rest, k, x, y => by
      unfold mazeLoop
      dsimp only
      cases hfind : (shuffle rng k dirs2).1.find? (fun d =>
          inBoundsB m (cx + d.1) (cy + d.2) &&
          (tileAt m (cx + d.1) (cy + d.2) == some .WALL)) with
      | none => exact lightCodeAt_mazeLoop rng fuel m rest _ x y
      | some d =>
          rw [lightCodeAt_mazeLoop rng fuel _ _ _ x y, lightCodeAt_carve, lightCodeAt_carve]

theorem lightCodeAt_roomsLoop (rng : Rng) (w h : ℕ) :
    ∀ (n : ℕ) (m : GameMap) (k : ℕ) (x y : ℤ),
      lightCodeAt (roomsLoop rng w h n m k).1 x y = lightCodeAt m x y
  | 0, m, k, x, y => rfl
  | n + 1, m, k, x, y => by
      unfold roomsLoop
      dsimp only
      rw [lightCodeAt_roomsLoop rng w h n _ _ x y, lightCodeAt_carveRect]

theorem lightCodeAt_roomsPhase (w h : ℕ) (rng : Rng) (k0 : ℕ) (x y : ℤ) :
    lightCodeAt (roomsPhase w h rng k0).1 x y = DARK := by
  unfold roomsPhase mazePhase
  dsimp only
  rw [lightCodeAt_roomsLoop, lightCodeAt_mazeLoop, lightCodeAt_carve,
    lightCodeAt_makeEmptyMap]

theorem rect_carve {m : GameMap} (hr : Rect m) (a b : ℤ) : Rect (carve m a b) :=
  rect_modifyCell hr a b _

theorem rect_foldl {α : Type} (f : GameMap → α → GameMap)
    (hf : ∀ (m : GameMap) (a : α), Rect m → Rect (f m a)) :
    ∀ (L : List α) (m : GameMap), Rect m → Rect (L.foldl f m) := by
  intro L
  induction L with
  | nil => intro m hm; exact hm
  | cons a L ih => intro m hm; rw [List.foldl_cons]; exact ih _ (hf m a hm)

theorem rect_carveRect {m : GameMap} (hr : Rect m) (rx ry rw rh : ℤ) :
    Rect (carveRect m rx ry rw rh) := by
  unfold carveRect
  apply rect_foldl _ _ _ _ hr
  intro m1 dy h1
  apply rect_foldl _ _ _ _ h1
  intro m2 dx h2
  exact rect_carve h2 _ _

theorem rect_mazeLoop (rng : Rng) :
    ∀ (fuel : ℕ) (m : GameMap) (stack : List (ℤ × ℤ)) (k : ℕ),
      Rect m → Rect (mazeLoop rng fuel m stack k).1
  | 0, m, stack, k, hr => hr
  | fuel + 1, m, [], k, hr => hr
  | fuel + 1, m, (cx, cy) :: rest, k, hr => by
      unfold mazeLoop
      dsimp only
      cases hfind : (shuffle rng k dirs2).1.find? (fun d =>
          inBoundsB m (cx + d.1) (cy + d.2) &&
          (tileAt m (cx + d.1) (cy + d.2) == some .WALL)) with
      | none => exact rect_mazeLoop rng fuel m rest _ hr
      | some d => exact rect_mazeLoop rng fuel _ _ _ (rect_carve (rect_carve hr _ _) _ _)

theorem rect_roomsLoop (rng : Rng) (w h : ℕ) :
    ∀ (n : ℕ) (m : GameMap) (k : ℕ), Rect m → Rect (roomsLoop rng w h n m k).1
  | 0, m, k, hr => hr
  | n + 1, m, k, hr => by
      unfold roomsLoop
      dsimp only
      exact rect_roomsLoop rng w h n _ _ (rect_carveRect hr _ _ _ _)

theorem rect_roomsPhase (w h : ℕ) (rng : Rng) (k0 : ℕ) :
    Rect (roomsPhase w h rng k0).1 := by
  unfold roomsPhase mazePhase
  dsimp only
  exact rect_roomsLoop rng w h _ _ _
    (rect_mazeLoop rng _ _ _ _ (rect_carve (rect_makeEmptyMap w h) _ _))

theorem foldl_light_tileAt (lx ly : ℤ) :
    ∀ (L : List (ℤ × ℤ)) (m : GameMap) (a b : ℤ),
      tileAt (L.foldl (fun acc o =>
        if inBoundsP acc (lx + o.1) (ly + o.2) ∧
            tileAt acc (lx + o.1) (ly + o.2) = some .FLOOR then
          modifyCell acc (lx + o.1) (ly + o.2)
            (fun c => { c with light := min c.light (o.1 * o.1 + o.2 * o.2).toNat })
        else acc) m) a b = tileAt m a b := by
  intro L
  induction L with
  | nil => intro m a b; rfl
  | cons o L ih =>
      intro m a b
      rw [List.foldl_cons, ih]
      split
      · exact tileAt_modifyCell_t m _ _ a b _ (fun c => rfl)
      · rfl

theorem foldl_light_inBoundsP (lx ly : ℤ) :
    ∀ (L : List (ℤ × ℤ)) (m : GameMap) (x y : ℤ),
      inBoundsP (L.foldl (fun acc o =>
        if inBoundsP acc (lx + o.1) (ly + o.2) ∧
            tileAt acc (lx + o.1) (ly + o.2) = some .FLOOR then
          modifyCell acc (lx + o.1) (ly + o.2)
            (fun c => { c with light := min c.light (o.1 * o.1 + o.2 * o.2).toNat })
        else acc) m) x y ↔ inBoundsP m x y := by
  intro L
  induction L with
  | nil => intro m x y; exact Iff.rfl
  | cons o L ih =>
      intro m x y
      rw [List.foldl_cons, ih]
      split
      · exact inBoundsP_modifyCell m _ _ x y _
      · exact Iff.rfl

theorem foldl_light_code (lx ly x y : ℤ) :
    ∀ (L : List (ℤ × ℤ)) (m : GameMap),
      inBoundsP m x y → tileAt m x y = some .FLOOR →
      lightCodeAt (L.foldl (fun acc o =>
        if inBoundsP acc (lx + o.1) (ly + o.2) ∧
            tileAt acc (lx + o.1) (ly + o.2) = some .FLOOR then
          modifyCell acc (lx + o.1) (ly + o.2)
            (fun c => { c with light := min c.light (o.1 * o.1 + o.2 * o.2).toNat })
        else acc) m) x y =
        if (x - lx, y - ly) ∈ L then
          min (lightCodeAt m x y) ((x - lx) * (x - lx) + (y - ly) * (y - ly)).toNat
        else lightCodeAt m x y := by
  intro L
  induction L with
  | nil =>
      intro m _ _
      rw [if_neg (List.not_mem_nil _)]
      rfl
  | cons o L ih =>
      intro m hb hf
      rw [List.foldl_cons]
      by_cases ho : (x - lx, y - ly) = o
      · subst ho
        dsimp only
        have hxx : lx + (x - lx) = x := by ring
        have hyy : ly + (y - ly) = y := by ring
        rw [hxx, hyy, if_pos ⟨hb, hf⟩]
        have hb1 : inBoundsP (modifyCell m x y
            (fun c => { c with light := min c.light ((x - lx) * (x - lx) + (y - ly) * (y - ly)).toNat })) x y :=
          (inBoundsP_modifyCell m x y x y _).mpr hb
        have hf1 : tileAt (modifyCell m x y
            (fun c => { c with light := min c.light ((x - lx) * (x - lx) + (y - ly) * (y - ly)).toNat })) x y = some .FLOOR := by
          rw [tileAt_modifyCell_t m x y x y
            (fun c => { c with light := min c.light ((x - lx) * (x - lx) + (y - ly) * (y - ly)).toNat })
            (fun c => rfl)]
          exact hf
        rw [ih _ hb1 hf1]
        have hm1code : lightCodeAt (modifyCell m x y
            (fun c => { c with light := min c.light ((x - lx) * (x - lx) + (y - ly) * (y - ly)).toNat })) x y =
            min (lightCodeAt m x y) ((x - lx) * (x - lx) + (y - ly) * (y - ly)).toNat := by
          unfold lightCodeAt
          rw [getCell?_modifyCell_self]
          cases hg : getCell? m x y with
          | none =>
              unfold tileAt at hf
              rw [hg] at hf
              simp at hf
          | some c => rfl
        rw [hm1code, if_pos (List.mem_cons_self _ _)]
        by_cases hmem : ((x - lx, y - ly) : ℤ × ℤ) ∈ L
        · rw [if_pos hmem, min_assoc, min_self]
        · rw [if_neg hmem]
      · have hne : ¬(x = lx + o.1 ∧ y = ly + o.2) := by
          intro hxy
          apply ho
          rw [Prod.ext_iff]
          dsimp only
          omega
        have hmm : (((x - lx, y - ly) : ℤ × ℤ) ∈ o :: L) ↔ (((x - lx, y - ly) : ℤ × ℤ) ∈ L) := by
          rw [List.mem_cons]
          simp [ho]
        by_cases hcond : inBoundsP m (lx + o.1) (ly + o.2) ∧
            tileAt m (lx + o.1) (ly + o.2) = some .FLOOR
        · rw [if_pos hcond]
          have hb1 := (inBoundsP_modifyCell m (lx + o.1) (ly + o.2) x y
            (fun c => { c with light := min c.light (o.1 * o.1 + o.2 * o.2).toNat })).mpr hb
          have hf1 : tileAt (modifyCell m (lx + o.1) (ly + o.2)
              (fun c => { c with light := min c.light (o.1 * o.1 + o.2 * o.2).toNat })) x y =
              some .FLOOR := by
            rw [tileAt_modifyCell_t m (lx + o.1) (ly + o.2) x y
              (fun c => { c with light := min c.light (o.1 * o.1 + o.2 * o.2).toNat })
              (fun c => rfl)]
            exact hf
          rw [ih _ hb1 hf1]
          rw [lightCodeAt_modifyCell_ne m (lx + o.1) (ly + o.2) x y _ hne]
          by_cases hmem : ((x - lx, y - ly) : ℤ × ℤ) ∈ L
          · rw [if_pos hmem, if_pos (hmm.mpr hmem)]
          · rw [if_neg hmem, if_neg (fun hc => hmem (hmm.mp hc))]
        · rw [if_neg hcond]
          rw [ih m hb hf]
          by_cases hmem : ((x - lx, y - ly) : ℤ × ℤ) ∈ L
          · rw [if_pos hmem, if_pos (hmm.mpr hmem)]
          · rw [if_neg hmem, if_neg (fun hc => hmem (hmm.mp hc))]

theorem applyLight_tileAt (m : GameMap) (lx ly a b : ℤ) :
    tileAt (applyLight m lx ly) a b = tileAt m a b := by
  unfold applyLight
  exact foldl_light_tileAt lx ly box5 m a b

theorem applyLight_inBoundsP (m : GameMap) (lx ly x y : ℤ) :
    inBoundsP (applyLight m lx ly) x y ↔ inBoundsP m x y := by
  unfold applyLight
  exact foldl_light_inBoundsP lx ly box5 m x y

theorem applyLight_code (m : GameMap) (lx ly x y : ℤ)
    (hb : inBoundsP m x y) (hf : tileAt m x y = some .FLOOR) :
    lightCodeAt (applyLight m lx ly) x y =
      if (x - lx, y - ly) ∈ box5 then
        min (lightCodeAt m x y) ((x - lx) * (x - lx) + (y - ly) * (y - ly)).toNat
      else lightCodeAt m x y := by
  unfold applyLight
  exact foldl_light_code lx ly x y box5 m hb hf

theorem lightsLoop_tileAt (rng : Rng) (w h : ℕ) :
    ∀ (n : ℕ) (m : GameMap) (k : ℕ) (a b : ℤ),
      tileAt (lightsLoop rng w h n m k).1 a b = tileAt m a b
  | 0, m, k, a, b => rfl
  | n + 1, m, k, a, b => by
      unfold lightsLoop
      dsimp only
      rw [lightsLoop_tileAt rng w h n _ _ a b]
      split
      · exact applyLight_tileAt m _ _ a b
      · rfl

theorem lightFoldCode_cons (m0 : GameMap) (x y : ℤ) (s : ℤ × ℤ) (L : List (ℤ × ℤ))
    (init : ℕ) :
    lightFoldCode m0 x y (s :: L) init =
      lightFoldCode m0 x y L
        (if tileAt m0 s.1 s.2 = some .FLOOR ∧ (x - s.1, y - s.2) ∈ box5 then
          min init ((x - s.1) * (x - s.1) + (y - s.2) * (y - s.2)).toNat
        else init) := rfl

theorem lightFoldCode_congr (m1 m2 : GameMap) (x y : ℤ)
    (ht : ∀ a b : ℤ, tileAt m1 a b = tileAt m2 a b) :
    ∀ (L : List (ℤ × ℤ)) (init : ℕ),
      lightFoldCode m1 x y L init = lightFoldCode m2 x y L init
  | [], init => rfl
  | s :: L, init => by
      rw [lightFoldCode_cons, lightFoldCode_cons, ht s.1 s.2,
        lightFoldCode_congr m1 m2 x y ht L]

theorem lightsLoop_code (rng : Rng) (w h : ℕ) (x y : ℤ) :
    ∀ (n : ℕ) (m : GameMap) (k : ℕ),
      inBoundsP m x y → tileAt m x y = some .FLOOR →
      lightCodeAt (lightsLoop rng w h n m k).1 x y =
        lightFoldCode m x y (lightDrawCoords rng w h k n) (lightCodeAt m x y)
  | 0, m, k, hb, hf => rfl
  | n + 1, m, k, hb, hf => by
      unfold lightsLoop
      dsimp only
      rw [show lightDrawCoords rng w h k (n + 1) =
        (randInt (rng k) 2 ((w : ℤ) - 3), randInt (rng (k + 1)) 2 ((h : ℤ) - 3)) ::
          lightDrawCoords rng w h (k + 2) n from rfl]
      rw [lightFoldCode_cons]
      dsimp only
      by_cases hc : tileAt m (randInt (rng k) 2 ((w : ℤ) - 3))
          (randInt (rng (k + 1)) 2 ((h : ℤ) - 3)) = some .FLOOR
      · rw [if_pos hc]
        have hb1 := (applyLight_inBoundsP m (randInt (rng k) 2 ((w : ℤ) - 3))
          (randInt (rng (k + 1)) 2 ((h : ℤ) - 3)) x y).mpr hb
        have hf1 : tileAt (applyLight m (randInt (rng k) 2 ((w : ℤ) - 3))
            (randInt (rng (k + 1)) 2 ((h : ℤ) - 3))) x y = some .FLOOR := by
          rw [applyLight_tileAt]
          exact hf
        rw [lightsLoop_code rng w h x y n _ (k + 2) hb1 hf1]
        rw [lightFoldCode_congr _ m x y
          (fun a b => applyLight_tileAt m _ _ a b) (lightDrawCoords rng w h (k + 2) n)]
        rw [applyLight_code m _ _ x y hb hf]
        by_cases hmem : ((x - randInt (rng k) 2 ((w : ℤ) - 3),
            y - randInt (rng (k + 1)) 2 ((h : ℤ) - 3)) : ℤ × ℤ) ∈ box5
        · rw [if_pos hmem, if_pos ⟨hc, hmem⟩]
        · rw [if_neg hmem, if_neg (fun hcc => hmem hcc.2)]
      · rw [if_neg hc]
        rw [lightsLoop_code rng w h x y n m (k + 2) hb hf]
        rw [if_neg (fun hcc => hc hcc.1)]

theorem mem_box5_iff (a b : ℤ) : (a, b) ∈ box5 ↔ a * a + b * b < 9 := by
  have hb5 : box5 = [(-2, -2), (-1, -2), (0, -2), (1, -2), (2, -2),
      (-2, -1), (-1, -1), (0, -1), (1, -1), (2, -1),
      (-2, 0), (-1, 0), (0, 0), (1, 0), (2, 0),
      (-2, 1), (-1, 1), (0, 1), (1, 1), (2, 1),
      (-2, 2), (-1, 2), (0, 2), (1, 2), (2, 2)] := by decide
  constructor
  · intro hmem
    rw [hb5] at hmem
    simp only [List.mem_cons, List.not_mem_nil, or_false] at hmem
    have hbounds : -2 ≤ a ∧ a ≤ 2 ∧ -2 ≤ b ∧ b ≤ 2 := by
      rcases hmem with h|h|h|h|h|h|h|h|h|h|h|h|h|h|h|h|h|h|h|h|h|h|h|h|h <;>
        (rw [Prod.mk.injEq] at h; omega)
    obtain ⟨h1, h2, h3, h4⟩ := hbounds
    nlinarith [mul_nonneg (by linarith : (0 : ℤ) ≤ 2 - a) (by linarith : (0 : ℤ) ≤ 2 + a),
      mul_nonneg (by linarith : (0 : ℤ) ≤ 2 - b) (by linarith : (0 : ℤ) ≤ 2 + b)]
  · intro h
    have ha0 : 0 ≤ a * a := mul_self_nonneg a
    have hb0 : 0 ≤ b * b := mul_self_nonneg b
    have h6a : 6 * a ≤ 17 := by nlinarith [mul_self_nonneg (a - 3)]
    have h6a' : -17 ≤ 6 * a := by nlinarith [mul_self_nonneg (a + 3)]
    have h6b : 6 * b ≤ 17 := by nlinarith [mul_self_nonneg (b - 3)]
    have h6b' : -17 ≤ 6 * b := by nlinarith [mul_self_nonneg (b + 3)]
    have ha1 : -2 ≤ a := by omega
    have ha2 : a ≤ 2 := by omega
    have hb1 : -2 ≤ b := by omega
    have hb2 : b ≤ 2 := by omega
    interval_cases a <;> interval_cases b <;> decide

theorem filter_box5_eq (x y : ℤ) (m0 : GameMap) (L : List (ℤ × ℤ)) :
    L.filter (fun s => decide (tileAt m0 s.1 s.2 = some .FLOOR) &&
      decide ((x - s.1, y - s.2) ∈ box5)) =
    L.filter (fun s => decide (tileAt m0 s.1 s.2 = some .FLOOR) &&
      decide ((x - s.1) * (x - s.1) + (y - s.2) * (y - s.2) < 9)) := by
  apply List.filter_congr
  intro s _
  rw [decide_eq_decide.mpr (mem_box5_iff (x - s.1) (y - s.2))]

theorem foldr_min_swap (d : ℕ) :
    ∀ (l : List ℕ) (i : ℕ), l.foldr min (min i d) = min d (l.foldr min i)
  | [], i => by rw [List.foldr_nil, List.foldr_nil, min_comm]
  | a :: l, i => by
      rw [List.foldr_cons, List.foldr_cons, foldr_min_swap d l i, min_left_comm]

theorem lightFoldCode_eq_filter (m0 : GameMap) (x y : ℤ) :
    ∀ (L : List (ℤ × ℤ)) (init : ℕ),
      lightFoldCode m0 x y L init =
        ((L.filter (fun s => decide (tileAt m0 s.1 s.2 = some .FLOOR) &&
            decide ((x - s.1, y - s.2) ∈ box5))).map
          (fun s => ((x - s.1) * (x - s.1) + (y - s.2) * (y - s.2)).toNat)).foldr min init
  | [], init => rfl
  | s :: L, init => by
      rw [lightFoldCode_cons]
      by_cases hc : tileAt m0 s.1 s.2 = some .FLOOR ∧ (x - s.1, y - s.2) ∈ box5
      · rw [if_pos hc]
        have hpos : (decide (tileAt m0 s.1 s.2 = some .FLOOR) &&
            decide ((x - s.1, y - s.2) ∈ box5)) = true := by
          simp [hc.1, hc.2]
        rw [List.filter_cons, if_pos hpos, List.map_cons, List.foldr_cons,
          lightFoldCode_eq_filter m0 x y L _]
        exact foldr_min_swap _ _ _
      · rw [if_neg hc]
        have hneg : ¬((decide (tileAt m0 s.1 s.2 = some .FLOOR) &&
            decide ((x - s.1, y - s.2) ∈ box5)) = true) := by
          rcases not_and_or.mp hc with h | h <;> simp [h]
        rw [List.filter_cons, if_neg hneg]
        exact lightFoldCode_eq_filter m0 x y L init

theorem realLightVal_foldr_min :
    ∀ (l : List ℕ),
      realLightVal (l.foldr min DARK) = (l.map realLightVal).foldr max 0
  | [] => realLightVal_nine
  | a :: l => by
      rw [List.foldr_cons, realLightVal_min, realLightVal_foldr_min l,
        List.map_cons, List.foldr_cons]

/-- C7 corrected (amended): the light pass takes exactly `⌊w*h/200⌋` draws,
but a draw landing on a Wall cell places no source (it is skipped, not
redrawn); every Floor cell of the final grid ends with float light equal to
the maximum, over the draws that did land on Floor cells and lie within
Euclidean distance 3 of the cell (squared distance < 9), of
`clamp(1 - d/3, 0, 1)` — and `0` when no such source exists. -/
theorem light_pass_spec (w h : ℕ) (rng : Rng) (x y : ℤ)
    (hf : tileAt (generateLayout w h rng) x y = some .FLOOR) :
    realLightVal (lightCodeAt (generateLayout w h rng) x y) =
      (((lightDrawCoords rng w h (roomsPhase w h rng 0).2 (w * h / 200)).filter
            (fun s => decide (tileAt (roomsPhase w h rng 0).1 s.1 s.2 = some .FLOOR) &&
              decide ((x - s.1) * (x - s.1) + (y - s.2) * (y - s.2) < 9))).map
          (fun s => realLightVal ((x - s.1) * (x - s.1) + (y - s.2) * (y - s.2)).toNat)).foldr
        max 0 := by
  have hgen : generateLayout w h rng =
      (lightsLoop rng w h (w * h / 200) (roomsPhase w h rng 0).1
        (roomsPhase w h rng 0).2).1 := by
    unfold generateLayout generateLayoutAux
    rfl
  rw [hgen] at hf ⊢
  have hf0 : tileAt (roomsPhase w h rng 0).1 x y = some .FLOOR := by
    rw [← lightsLoop_tileAt rng w h (w * h / 200) (roomsPhase w h rng 0).1
      (roomsPhase w h rng 0).2 x y]
    exact hf
  have hb0 : inBoundsP (roomsPhase w h rng 0).1 x y :=
    tileAt_some_inBounds (rect_roomsPhase w h rng 0) hf0
  rw [lightsLoop_code rng w h x y (w * h / 200) _ _ hb0 hf0,
    lightCodeAt_roomsPhase, lightFoldCode_eq_filter, filter_box5_eq,
    realLightVal_foldr_min, List.map_map]
  rfl

/-- C7 counterexample: on the 40×5 grid with the all-zero stream the single
draw (`⌊40*5/200⌋ = 1`) lands on `(2, 2)`, a Wall cell of the maze+rooms
grid, so no light source is placed there and the claim's "each draw lands on
a Floor cell" part fails. -/
theorem light_pass_cex : ¬ ClaimC7 40 5 rngZ := by
  intro hcl
  exact absurd (hcl.1 (2, 2) (by decide)) (by decide)

/-- Witness for `light_pass_spec`: the Floor cell `(1, 1)` of the concrete
5×5 layout with the all-zero stream (`⌊25/200⌋ = 0` draws, light `0`). -/
theorem light_pass_spec_witness :
    tileAt (generateLayout 5 5 rngZ) 1 1 = some .FLOOR ∧
    realLightVal (lightCodeAt (generateLayout 5 5 rngZ) 1 1) =
      (((lightDrawCoords rngZ 5 5 (roomsPhase 5 5 rngZ 0).2 (5 * 5 / 200)).filter
            (fun s => decide (tileAt (roomsPhase 5 5 rngZ 0).1 s.1 s.2 = some .FLOOR) &&
              decide ((1 - s.1) * (1 - s.1) + (1 - s.2) * (1 - s.2) < 9))).map
          (fun s => realLightVal ((1 - s.1) * (1 - s.1) + (1 - s.2) * (1 - s.2)).toNat)).foldr
        max 0 :=
  ⟨by decide, light_pass_spec 5 5 rngZ 1 1 (by decide)⟩

end Backrooms
